import Mathlib

/-!
# Verification of the querydoc RAG core

Shallow embedding of the retrieval-augmented-generation core of the
querydoc repository:

* `calculateRelevance`, `findRelevantChunks`, `buildPrompt`
  (`src/lib/ragUtils.ts`),
* `chunkText` (the layout-aware segmenter with sliding-window fallback,
  `src/unnamed/part_011`),
* the groq usage counter (`src/lib/groq.ts`), and
* the question-turn orchestration `processQuestion`
  (`src/components/ChatInterface.tsx`).

Strings are modelled as Lean `String`s; the tokenisation and
occurrence-counting primitives of the source (JavaScript `split(/\s+/)`,
`match(new RegExp(word, 'g'))`, `replace(/(ing|ed|s|es)$/, '')`,
`trim`, `indexOf`, `slice`) are modelled on `List Char`.  Relevance
scores (every value the source produces is a small multiple of 1/2,
hence exact in binary floating point) are represented in integer
half-points — twice the JavaScript value, exact and order-isomorphic
(see `wordScore`); page coordinates are modelled by `ℚ`.
`Math.ceil(topK * 0.7)` is modelled by the rational ceiling
`(7 * topK + 9) / 10`; the two agree for every argument far beyond any
size the caller can produce (double rounding could only disturb the
ceiling for arguments around 10^14).
-/

namespace QueryDoc

/-- JavaScript whitespace test for the purposes of `split(/\s+/)` and
`trim()`; the source only ever meets ASCII whitespace. -/
def isWs (c : Char) : Bool := c.isWhitespace

/-- Characters of a string, lower-cased, as JavaScript
`toLowerCase()` does on the ASCII range. -/
def lowerL (s : String) : List Char := s.toList.map Char.toLower

/-- JavaScript `replace(/[?.,!]/g, ' ')` on a character list. -/
def stripPunct (s : List Char) : List Char :=
  s.map fun c => if c = '?' ∨ c = '.' ∨ c = ',' ∨ c = '!' then ' ' else c

/-- Helper of `splitWsJS`: `some acc` means we are inside a word whose
characters so far are `acc` (reversed); `none` means we are inside a
whitespace run. -/
def splitWsAux : Option (List Char) → List Char → List (List Char)
  | some acc, [] => [acc.reverse]
  | none, [] => [[]]
  | some acc, c :: rest =>
    if isWs c then acc.reverse :: splitWsAux none rest
    else splitWsAux (some (c :: acc)) rest
  | none, c :: rest =>
    if isWs c then splitWsAux none rest
    else splitWsAux (some [c]) rest

/-- JavaScript `String.prototype.split(/\s+/)`: splits on maximal
whitespace runs; a leading (resp. trailing) whitespace run contributes
a leading (resp. trailing) empty string, and `"".split(/\s+/)` is
`[""]`. -/
def splitWsJS (s : List Char) : List (List Char) := splitWsAux (some []) s

/-- JavaScript `String.prototype.trim()` on a character list. -/
def trimL (s : List Char) : List Char :=
  ((s.dropWhile isWs).reverse.dropWhile isWs).reverse

/-- Scanning loop of `countOcc`: walk `s` one character at a time;
`skip > 0` means we are still inside the span of the previous match
(matches are non-overlapping, as for a global regex). -/
def countOccGo (pat : List Char) : List Char → Nat → Nat
  | [], _ => 0
  | _ :: t, skip + 1 => countOccGo pat t skip
  | c :: t, 0 =>
    if pat.isPrefixOf (c :: t) then 1 + countOccGo pat t (pat.length - 1)
    else countOccGo pat t 0

/-- Number of matches of `String.prototype.match(new RegExp(pat, 'g'))`
for a literal (regex-escaped) pattern: non-overlapping, leftmost-first
occurrences of `pat` in `s`.  (JavaScript's empty pattern matches at
every position; the source only ever uses patterns of length ≥ 3.) -/
def countOcc (pat s : List Char) : Nat :=
  match pat with
  | [] => s.length + 1
  | _ :: _ => countOccGo pat s 0

/-- JavaScript `word.replace(/(ing|ed|s|es)$/, '')`: the leftmost
(hence longest) of the four suffixes is removed; `es` wins over the
shorter `s` since it starts one position earlier. -/
def stripSuffixJS (w : List Char) : List Char :=
  if ['i','n','g'].isSuffixOf w then w.dropLast.dropLast.dropLast
  else if ['e','d'].isSuffixOf w then w.dropLast.dropLast
  else if ['e','s'].isSuffixOf w then w.dropLast.dropLast
  else if ['s'].isSuffixOf w then w.dropLast
  else w

/-- Query tokenisation of `calculateRelevance`
(`src/lib/ragUtils.ts:9-12`): lower-case, replace `?.,!` by spaces,
split on whitespace, keep words longer than 2 characters. -/
def questionWordsOf (q : List Char) : List (List Char) :=
  (splitWsJS (stripPunct q)).filter (fun w => 2 < w.length)

/-- One iteration of the scoring loop of `calculateRelevance`
(`src/lib/ragUtils.ts:19-41`): the increments to
(`score`, `uniqueMatches`) contributed by one query word.

Every value the source produces here is an exact multiple of 1/2
(the only fraction is the `0.5` partial unique match), so scores are
represented throughout in **half-points** — twice the JavaScript
value, an exact and order-isomorphic integer representation (a
JavaScript double is exact on these values, so no rounding is lost).
Thus the exact branch contributes `min(occ,3)*2` points =
`min(occ,3)*4` half-points to `score` and `1` = `2` half-points to
`uniqueMatches`; the root branch contributes `min(occ,2)` points =
`min(occ,2)*2` half-points and `0.5` = `1` half-point. -/
def wordScore (w chunkLower : List Char) : ℕ × ℕ :=
  let exactOccurrences := countOcc w chunkLower
  if 0 < exactOccurrences then
    ((min exactOccurrences 3) * 2 * 2, 2)
  else if 4 < w.length then
    let root := stripSuffixJS w
    if 3 < root.length then
      let rootOccurrences := countOcc root chunkLower
      if 0 < rootOccurrences then ((min rootOccurrences 2) * 2, 1)
      else (0, 0)
    else (0, 0)
  else (0, 0)

/-- The scoring loop of `calculateRelevance` with its two
accumulators (in half-points, see `wordScore`). -/
def relevanceLoop (chunkLower : List Char) :
    List (List Char) → ℕ × ℕ → ℕ × ℕ
  | [], acc => acc
  | w :: ws, (score, uniq) =>
    let inc := wordScore w chunkLower
    relevanceLoop chunkLower ws (score + inc.1, uniq + inc.2)

/-- `calculateRelevance` (`src/lib/ragUtils.ts:8-47`) in half-points:
`calculateRelevance2 q c` is exactly twice the JavaScript score.  The
query is already a character list (the callers pass an already
lower-cased expanded query; the function lowercases it again exactly
as the source does). -/
def calculateRelevance2 (question : List Char) (chunk : String) : ℕ :=
  let questionWords := questionWordsOf (question.map Char.toLower)
  let chunkLower := lowerL chunk
  let r := relevanceLoop chunkLower questionWords (0, 0)
  r.1 + r.2 * 15

/-- The JavaScript-valued relevance score: `calculateRelevance2`
half-points, divided by two. -/
def relevanceQ (question : List Char) (chunk : String) : ℚ :=
  (calculateRelevance2 question chunk : ℚ) / 2

/-- Bounding box of one positioned text fragment
(`src/types`, `rects` entries). -/
structure Rect where
  top : ℚ
  left : ℚ
  width : ℚ
  height : ℚ
deriving DecidableEq

/-- `Chunk` (`src/types/index.ts`): a retrievable unit of text.
`documentId`/`documentName` are attached by the page component when
several documents are managed; `rects` and `pinpointText` are
optional. -/
structure Chunk where
  chunkId : String
  text : String
  pageNumber : Nat
  chunkIndex : Nat
  rects : Option (List Rect) := none
  documentId : Option String := none
  documentName : Option String := none
  pinpointText : Option String := none
deriving DecidableEq

/-- A `{role, content}` history entry as passed to the Ranker and the
Prompt Builder. -/
structure HMsg where
  role : String
  content : String
deriving DecidableEq

/-- `chunk.documentId || 'unknown'`: JavaScript `||` sends both a
missing and an empty `documentId` to `'unknown'`. -/
def docKey (c : Chunk) : String :=
  match c.documentId with
  | none => "unknown"
  | some s => if s = "" then "unknown" else s

/-- JavaScript `array.slice(-n)`: the last `n` elements (all of them
when there are fewer). -/
def lastN (n : Nat) (l : List α) : List α := l.drop (l.length - n)

/-- First-occurrence deduplication, as `[...new Set(a)]` does. -/
def dedupFirst [DecidableEq α] : List α → List α → List α
  | _, [] => []
  | seen, x :: xs =>
    if x ∈ seen then dedupFirst seen xs
    else x :: dedupFirst (x :: seen) xs

/-- Query expansion of `findRelevantChunks`
(`src/lib/ragUtils.ts:60-79`): when a history is supplied, keywords
(words longer than 4 characters) of the last two user messages that do
not already occur in the question are appended (at most 5) to the
lower-cased question. -/
def expandQuery (question : String) (history : List HMsg) : List Char :=
  let expandedQuery := lowerL question
  if history.length > 0 then
    let contextKeywords :=
      (splitWsJS (List.intercalate [' ']
        ((lastN 2 (history.filter fun m => m.role = "user")).map
          fun m => stripPunct (lowerL m.content)))).filter
        fun w => 4 < w.length
    let questionWords := splitWsJS expandedQuery
    let uniqueHistoryWords :=
      (dedupFirst [] contextKeywords).filter fun w => w ∉ questionWords
    expandedQuery ++ [' '] ++
      List.intercalate [' '] (uniqueHistoryWords.take 5)
  else
    expandedQuery

/-- Stable insertion of a scored chunk into a list sorted by
descending score; together with `sortByScoreDesc` this is the unique
stable descending sort, which is what `Array.prototype.sort` with the
consistent comparator `(a, b) => b.score - a.score` produces
(`src/lib/ragUtils.ts:87`). -/
def insertDesc (x : Chunk × ℕ) : List (Chunk × ℕ) → List (Chunk × ℕ)
  | [] => [x]
  | y :: ys => if y.2 ≤ x.2 then x :: y :: ys else y :: insertDesc x ys

/-- Stable sort by descending score. -/
def sortByScoreDesc : List (Chunk × ℕ) → List (Chunk × ℕ)
  | [] => []
  | x :: xs => insertDesc x (sortByScoreDesc xs)

/-- `Math.ceil(topK * 0.7)` (`src/lib/ragUtils.ts:102`), as a rational
ceiling; agrees with the double-precision computation for every
argument the caller can produce. -/
def ceil07 (topK : Nat) : Nat := (7 * topK + 9) / 10

/-- The diversity selection loop of `findRelevantChunks`
(`src/lib/ragUtils.ts:94-108`): walk the positive-score candidates in
ranked order, stop at `topK` selections, and skip a candidate whose
document already contributed `Math.ceil(topK * 0.7)` selections.
`docCounts` is modelled as a total map `String → Nat`, zero outside
the keys written so far. -/
def selectDiverse (topK : Nat) :
    List (Chunk × ℕ) → (String → Nat) → Nat → List Chunk
  | [], _, _ => []
  | item :: rest, docCounts, selLen =>
    if topK ≤ selLen then []
    else
      let docId := docKey item.1
      if docCounts docId < ceil07 topK then
        item.1 :: selectDiverse topK rest
          (fun d => if d = docId then docCounts docId + 1 else docCounts d)
          (selLen + 1)
      else
        selectDiverse topK rest docCounts selLen

/-- The scored-and-sorted candidate list of `findRelevantChunks`:
every chunk paired with its relevance against the expanded query,
stably sorted by descending score. -/
def rankedChunks (question : String) (chunks : List Chunk)
    (history : List HMsg) : List (Chunk × ℕ) :=
  sortByScoreDesc
    (chunks.map fun c => (c, calculateRelevance2 (expandQuery question history) c.text))

/-- `findRelevantChunks` (`src/lib/ragUtils.ts:54-109`). -/
def findRelevantChunks (question : String) (chunks : List Chunk)
    (topK : Nat) (history : List HMsg) : List Chunk :=
  let candidates := (rankedChunks question chunks history).filter fun p => 0 < p.2
  if candidates.length = 0 then []
  else selectDiverse topK candidates (fun _ => 0) 0

/-- The labelled context block of `buildPrompt`
(`src/lib/ragUtils.ts:115-117`): note the source writes `Page <n>`,
with no colon after `Page`. -/
def contextBlock (c : Chunk) : String :=
  "[Document: " ++
    (match c.documentName with
      | none => "Unknown"
      | some s => if s = "" then "Unknown" else s) ++
    ", Page " ++ toString c.pageNumber ++ "]\n" ++ c.text

/-- The history transcript of `buildPrompt`
(`src/lib/ragUtils.ts:122-125`). -/
def historyTextOf (history : List HMsg) : String :=
  if history.length > 0 then
    "Previous Conversation:\n" ++
      String.intercalate "\n"
        (history.map fun m =>
          (if m.role = "user" then "Question" else "Answer") ++ ": " ++ m.content) ++
      "\n\n"
  else ""

/-- `buildPrompt` (`src/lib/ragUtils.ts:114-144`), with the source's
template literal copied verbatim (the first two lines end in a
space). -/
def buildPrompt (question : String) (chunks : List Chunk)
    (history : List HMsg) : String :=
  let context := String.intercalate "\n\n---\n\n" (chunks.map contextBlock)
  "You are a professional document analysis assistant. \n" ++
  "You are provided with excerpts from one or more documents. \n" ++
  "Review the provided context and conversation history to answer the final question accurately.\n" ++
  "\n" ++
  "CRITICAL GUIDELINES:\n" ++
  "1. Answer based ONLY on the provided document text.\n" ++
  "2. If multiple documents are mentioned, cross-reference them to find connections (e.g., if one document mentions a person and another mentions an action they took).\n" ++
  "3. Always cite the document name and page numbers used in your answer.\n" ++
  "4. If the answer is not in the context, say you don't have enough information.\n" ++
  "\n" ++
  "---\n" ++
  "DOCUMENT CONTEXT:\n" ++
  context ++ "\n" ++
  "---\n" ++
  "\n" ++
  historyTextOf history ++ "Final Question: " ++ question ++
  "\n" ++
  "\n" ++
  "Answer:"

/-! ## Segmenter (`chunkText`, `src/unnamed/part_011:145-256`) -/

/-- A positioned text fragment (`TextItem` in `src/types`). -/
structure TextItem where
  str : String
  left : ℚ
  top : ℚ
  width : ℚ
  height : ℚ
deriving DecidableEq

/-- `PageText` (`src/types`): `items` is optional; both a missing and
an empty `items` send `chunkText` to the sliding-window fallback. -/
structure PageText where
  pageNumber : Nat
  text : String
  items : Option (List TextItem) := none
deriving DecidableEq

/-- `item.height || 10`: JavaScript `||` replaces a zero (falsy)
height by 10. -/
def heightOr10 (h : ℚ) : ℚ := if h = 0 then 10 else h

/-- `Math.abs`. -/
def jsAbs (q : ℚ) : ℚ := if q < 0 then -q else q

/-- `Math.max`. -/
def jsMax (a b : ℚ) : ℚ := if a ≤ b then b else a

/-- The item comparator of the layout path
(`src/unnamed/part_011:160-165`). -/
def cmpItems (a b : TextItem) : ℚ :=
  if 5 < jsAbs (a.top - b.top) then a.top - b.top else a.left - b.left

/-- Stable insertion w.r.t. `cmpItems`. -/
def insertItem (x : TextItem) : List TextItem → List TextItem
  | [] => [x]
  | y :: ys => if cmpItems x y ≤ 0 then x :: y :: ys else y :: insertItem x ys

/-- `[...page.items].sort(cmpItems)`, modelled as the stable insertion
sort (the comparator is not transitive in general, so engines may
differ on exotic inputs; on inputs where the comparator is consistent
every stable sort, including this one, produces the JavaScript
result). -/
def sortItems : List TextItem → List TextItem
  | [] => []
  | x :: xs => insertItem x (sortItems xs)

/-- A grouped line of the layout path. -/
structure Line where
  top : ℚ
  height : ℚ
  items : List TextItem
  text : String
deriving DecidableEq

/-- The line-grouping loop (`src/unnamed/part_011:167-198`):
`currentLine`/`currentLineTop`/`currentLineHeight` threaded through
the items. -/
def linesLoop (currentLine : List TextItem) (currentLineTop currentLineHeight : ℚ) :
    List TextItem → List Line
  | [] =>
    if currentLine.length > 0 then
      [⟨currentLineTop, currentLineHeight, currentLine,
        String.intercalate " " (currentLine.map TextItem.str)⟩]
    else []
  | item :: rest =>
    if 5 < jsAbs (item.top - currentLineTop) then
      (if currentLine.length > 0 then
        [⟨currentLineTop, currentLineHeight, currentLine,
          String.intercalate " " (currentLine.map TextItem.str)⟩]
       else []) ++
      linesLoop [item] item.top (heightOr10 item.height) rest
    else
      linesLoop (currentLine ++ [item]) currentLineTop
        (jsMax currentLineHeight (heightOr10 item.height)) rest

/-- Lines of a non-empty sorted item list. -/
def linesOf (sorted : List TextItem) : List Line :=
  match sorted with
  | [] => []
  | first :: _ => linesLoop [] first.top (heightOr10 first.height) sorted

/-- The paragraph-grouping loop (`src/unnamed/part_011:200-219`):
groups consecutive lines, starting a new paragraph when the vertical
gap to the previous line exceeds 1.5× the line height. -/
def paragraphsLoop (currentParagraph : List TextItem) (lastLineTop : ℚ) :
    List Line → List (List TextItem)
  | [] => if currentParagraph.length > 0 then [currentParagraph] else []
  | line :: rest =>
    let verticalGap := line.top - lastLineTop
    let isNewParagraph := line.height * (3/2) < verticalGap
    if isNewParagraph ∧ currentParagraph.length > 0 then
      currentParagraph :: paragraphsLoop line.items line.top rest
    else
      paragraphsLoop (currentParagraph ++ line.items) line.top rest

/-- Paragraphs of a line list (initial `lastLineTop` is
`lines[0]?.top`; for an empty line list the loop body never runs). -/
def paragraphsOf (lines : List Line) : List (List TextItem) :=
  match lines with
  | [] => []
  | first :: _ => paragraphsLoop [] first.top lines

/-- Paragraph-to-chunk conversion (`src/unnamed/part_011:222-236`):
a paragraph is kept only when its joined text has trimmed length
strictly greater than 5 — there is no exception for a paragraph that
is the only content of its page. -/
def paragraphChunks (pageNumber : Nat) :
    List (List TextItem) → Nat → List Chunk × Nat
  | [], chunkIndex => ([], chunkIndex)
  | paragraphItems :: rest, chunkIndex =>
    let text := String.intercalate " " (paragraphItems.map TextItem.str)
    if 5 < (trimL text.toList).length then
      let (more, finalIdx) := paragraphChunks pageNumber rest (chunkIndex + 1)
      ({ chunkId := "chunk-" ++ toString pageNumber ++ "-" ++ toString chunkIndex,
         text := text,
         pageNumber := pageNumber,
         chunkIndex := chunkIndex,
         rects := some (paragraphItems.map fun it =>
           ⟨it.top, it.left, it.width, it.height⟩) } :: more, finalIdx)
    else
      paragraphChunks pageNumber rest chunkIndex

/-- The sliding-window loop of the fallback branch
(`src/unnamed/part_011:239-252`) in its terminating regime
`overlap < chunkSize` (the loop advances by `chunkSize - overlap`
positive words per iteration; `chunkTextLoopFuel` below models the
loop without that restriction and witnesses its divergence
otherwise). -/
def slideWindows (words : List (List Char)) (chunkSize overlap : Nat)
    (i : Nat) : List (List (List Char)) :=
  if _h : i < words.length ∧ overlap < chunkSize then
    ((words.drop i).take chunkSize) ::
      slideWindows words chunkSize overlap (i + (chunkSize - overlap))
  else []
termination_by words.length - i
decreasing_by omega

/-- One iteration of the fallback branch of `chunkText`: join the
window's words with single spaces, and push a chunk unless the joined
text is whitespace-only (`if (chunkText.trim().length > 0)`). -/
def fallbackStep (pageNumber : Nat) (acc : List Chunk × Nat)
    (w : List (List Char)) : List Chunk × Nat :=
  let chunkText := String.mk (List.intercalate [' '] w)
  if 0 < (trimL chunkText.toList).length then
    (acc.1 ++
      [{ chunkId := "chunk-" ++ toString pageNumber ++ "-" ++ toString acc.2,
         text := chunkText,
         pageNumber := pageNumber,
         chunkIndex := acc.2 }], acc.2 + 1)
  else acc

/-- The fallback branch of `chunkText` for one page: window texts are
joined with single spaces and whitespace-only windows are dropped. -/
def fallbackChunks (pageNumber : Nat) (text : String)
    (chunkSize overlap : Nat) (chunkIndex : Nat) : List Chunk × Nat :=
  let words := splitWsJS text.toList
  let windows := slideWindows words chunkSize overlap 0
  windows.foldl (fallbackStep pageNumber) ([], chunkIndex)

/-- `chunkText` (`src/unnamed/part_011:145-256`), the layout-aware
segmenter with sliding-window fallback, restricted to the terminating
regime `overlap < chunkSize` on pages without positional items
(see `slideWindows`). -/
def chunkText (pages : List PageText) (chunkSize overlap : Nat) : List Chunk :=
  (pages.foldl
    (fun (acc : List Chunk × Nat) page =>
      match page.items with
      | some (it :: its) =>
        let sorted := sortItems (it :: its)
        let paragraphs := paragraphsOf (linesOf sorted)
        let (cs, idx) := paragraphChunks page.pageNumber paragraphs acc.2
        (acc.1 ++ cs, idx)
      | _ =>
        let (cs, idx) :=
          fallbackChunks page.pageNumber page.text chunkSize overlap acc.2
        (acc.1 ++ cs, idx))
    ([], 0)).1

/-- The fallback loop of `chunkText` exactly as written in the source:
`for (let i = 0; i < words.length; i += chunkSize - overlap)` with a
JavaScript-number index (which can stall or go negative when
`chunkSize ≤ overlap`).  Step-indexed: each iteration consumes one
unit of fuel and `none` means the loop has not finished within the
given fuel. -/
def chunkTextLoopFuel (wordCount : Nat) (chunkSize overlap : Int) :
    Int → Nat → Option Nat
  | _, 0 => none
  | i, fuel + 1 =>
    if i < (wordCount : Int) then
      (chunkTextLoopFuel wordCount chunkSize overlap
        (i + (chunkSize - overlap)) fuel).map (· + 1)
    else
      some 0

/-! ## Answer Orchestrator (`processQuestion`,
`src/components/ChatInterface.tsx:96-302`)

The orchestrator is modelled as a pure transition function.  The
environment-supplied parts — whether the local backend's liveness
probe succeeds, and what each of the two generation calls returns
(a streamed answer or a thrown error) — are oracle parameters; message
ids, timestamps, toast notifications, the `jump-to-source` event and
the generation statistics are dropped as irrelevant to the claims.
`backendCalls` counts the generation requests issued (`queryGroq` /
`queryOllama`); the liveness probe is not a generation call. -/

/-- A transcript message (`Message` in `src/types`, without the
id/timestamp/stats bookkeeping). -/
structure Msg where
  role : String
  content : String
  pageNumber : Option Nat := none
  sourceChunks : Option (List Chunk) := none
deriving DecidableEq

/-- What `ChatInterface` reads off a successful `queryOllama` call. -/
structure OllamaResult where
  response : String
deriving DecidableEq

/-- Result of one question-turn. -/
structure TurnOut where
  messages : List Msg
  usage : Nat
  backendCalls : Nat
deriving DecidableEq

/-- `GROQ_LIMIT` (`src/lib/groq.ts:79`). -/
def GROQ_LIMIT : Nat := 5

/-- First index of `pat` in `s` (JavaScript `indexOf`; `none` models
the sentinel `-1`). -/
def indexOfSub (s pat : List Char) : Option Nat :=
  match s with
  | [] => if pat = [] then some 0 else none
  | c :: t =>
    if pat.isPrefixOf (c :: t) then some 0
    else (indexOfSub t pat).map (· + 1)

/-- JavaScript `includes`, case already handled by the caller. -/
def containsSub (s pat : List Char) : Bool := (indexOfSub s pat).isSome

/-- A quote character for `replace(/^["']|["']$/g, '')`. -/
def isQuote (c : Char) : Bool := c = '"' ∨ c = Char.ofNat 39

/-- `pinpointResult.trim().replace(/^["']|["']$/g, '')`: one leading
and one trailing quote character are removed (a single-character
string loses only its one character). -/
def stripQuotesJS (s : List Char) : List Char :=
  let s1 := match s with
    | c :: t => if isQuote c then t else c :: t
    | [] => []
  match s1.getLast? with
  | some c => if isQuote c then s1.dropLast else s1
  | none => []

/-- The per-chunk pinpoint mapping
(`src/components/ChatInterface.tsx:222-262`): when the cleaned phrase
occurs in the chunk's lower-cased text and the chunk has rects, the
word span of the phrase is sliced out of `rects`; otherwise the chunk
is returned unchanged.  The source builds a fresh object
(`{ ...chunk, ... }`), never mutating the original. -/
def pinpointChunk (exactPhrase : List Char) (chunk : Chunk) : Chunk :=
  let phraseLower := exactPhrase.map Char.toLower
  let chunkLower := lowerL chunk.text
  match indexOfSub chunkLower phraseLower, chunk.rects with
  | some idxStart, some (r :: rs) =>
    let beforeStr := chunkLower.take idxStart
    let activeStr := (chunkLower.drop idxStart).take exactPhrase.length
    let startWordIndex :=
      if trimL beforeStr ≠ [] then (splitWsJS (trimL beforeStr)).length else 0
    let phraseWordCount := (splitWsJS (trimL activeStr)).length
    let endWordIndex := startWordIndex + phraseWordCount
    if startWordIndex < (r :: rs).length then
      let validEndWordIndex := min endWordIndex (r :: rs).length
      let newRects := ((r :: rs).drop startWordIndex).take (validEndWordIndex - startWordIndex)
      { chunk with
        pinpointText := some (String.mk exactPhrase),
        rects := some (if newRects.length > 0 then newRects else r :: rs) }
    else chunk
  | _, _ => chunk

/-- The pinpoint post-processing of a successful pinpoint call
(`src/components/ChatInterface.tsx:232-262`): clean the returned
phrase; when it is longer than 10 characters map `pinpointChunk` over
the ranked chunks, otherwise keep them as they are. -/
def applyPinpoint (pinpointResult : String) (relevantChunks : List Chunk) :
    List Chunk :=
  let exactPhrase := stripQuotesJS (trimL pinpointResult.toList)
  if 10 < exactPhrase.length then relevantChunks.map (pinpointChunk exactPhrase)
  else relevantChunks

/-- The quota-exhausted message of the offline-fallback path
(`src/components/ChatInterface.tsx:117-124`). -/
def offlineLimitContent (baseUrl : String) : String :=
  "❌ Local model is offline and Cloud Backup limit (5/5) has been reached. Please check your Ollama connection at "
    ++ baseUrl

/-- The informational message of the automatic cloud switch
(`src/components/ChatInterface.tsx:132-139`). -/
def fallbackNoteContent (requestsLeft : Nat) : String :=
  "⚠️ Note: Local Ollama is offline. Automatically switched to Cloud Backup (Llama 8B). (Requests left: "
    ++ toString requestsLeft ++ ")"

/-- The quota-exhausted message of the cloud path
(`src/components/ChatInterface.tsx:149-157`). -/
def cloudLimitContent : String :=
  "❌ Cloud Backup limit reached (5/5). Please switch back to local models or check your Ollama connection."

/-- The error thrown on an empty ranker result
(`src/components/ChatInterface.tsx:176`). -/
def noRelevantContent : String := "No relevant content found in the document."

/-- The turn-boundary catch (`src/components/ChatInterface.tsx:294`):
an error whose lower-cased text mentions `memory` gets a remediation
hint appended. -/
def augmentError (e : String) : String :=
  if containsSub (lowerL e) "memory".toList then
    e ++ "\n\n💡 Tip: This model might be too heavy for your system. Try switching to \"Gemma 2B\" or \"Groq Cloud\" in the selector above."
  else e

/-- The try-block of the turn
(`src/components/ChatInterface.tsx:166-292`) after the provider and
quota checks: rank, prompt, stream the main answer, best-effort
pinpoint, commit.  `msgs` already contains the user message (and the
fallback note, if any); `prior` is the transcript before this turn
(the source reads `messages.slice(-4)` from the still-unchanged React
state, so the history excludes the user message just appended). -/
def runGeneration (effectiveIsCloud : Bool) (usage : Nat)
    (question : String) (chunks : List Chunk) (prior msgs : List Msg)
    (mainCloud : Except String String)
    (mainLocal : Except String OllamaResult)
    (pinpointOut : Except String String) : TurnOut :=
  let history := (lastN 4 prior).map fun m => HMsg.mk m.role m.content
  let relevantChunks := findRelevantChunks question chunks 15 history
  if relevantChunks.length = 0 then
    { messages := msgs ++ [{ role := "assistant", content := augmentError noRelevantContent }],
      usage := usage, backendCalls := 0 }
  else
    match (if effectiveIsCloud then mainCloud else mainLocal.map OllamaResult.response) with
    | Except.error e =>
      { messages := msgs ++ [{ role := "assistant", content := augmentError e }],
        usage := usage, backendCalls := 1 }
    | Except.ok fullResponse =>
      let usageAfter := if effectiveIsCloud then usage + 1 else usage
      let pinpointedChunks :=
        match pinpointOut with
        | Except.error _ => relevantChunks
        | Except.ok pinpointResult => applyPinpoint pinpointResult relevantChunks
      { messages := msgs ++
          [{ role := "assistant", content := fullResponse,
             pageNumber := (pinpointedChunks.head?).map Chunk.pageNumber,
             sourceChunks := some pinpointedChunks }],
        usage := usageAfter, backendCalls := 2 }

/-- One question-turn of `processQuestion`
(`src/components/ChatInterface.tsx:96-302`), `isLoading = false`.
`cloudMode` is the `isCloudMode` flag, `ollamaRunning` the result of
the liveness probe (only consulted when `cloudMode` is false),
`usage` the persisted groq usage counter. -/
def processQuestion (cloudMode ollamaRunning : Bool) (usage : Nat)
    (baseUrl : String) (question : String) (chunks : List Chunk)
    (prior : List Msg) (mainCloud : Except String String)
    (mainLocal : Except String OllamaResult)
    (pinpointOut : Except String String) : TurnOut :=
  if trimL question.toList = [] then
    { messages := prior, usage := usage, backendCalls := 0 }
  else
    let msgs := prior ++ [{ role := "user", content := question }]
    if cloudMode = false ∧ ollamaRunning = false then
      if GROQ_LIMIT ≤ usage then
        { messages := msgs ++
            [{ role := "assistant", content := offlineLimitContent baseUrl }],
          usage := usage, backendCalls := 0 }
      else
        runGeneration true usage question chunks prior
          (msgs ++ [{ role := "assistant",
                      content := fallbackNoteContent (GROQ_LIMIT - usage) }])
          mainCloud mainLocal pinpointOut
    else
      if cloudMode = true ∧ GROQ_LIMIT ≤ usage then
        { messages := msgs ++ [{ role := "assistant", content := cloudLimitContent }],
          usage := usage, backendCalls := 0 }
      else
        runGeneration cloudMode usage question chunks prior msgs
          mainCloud mainLocal pinpointOut

/-! ## Derived definitions used by the theorems -/

/-- Total contribution of one query word to `calculateRelevance`, in
half-points: its immediate score increment plus its share of the
final `uniqueMatches * 15` bonus. -/
def contrib (chunkLower w : List Char) : ℕ :=
  (wordScore w chunkLower).1 + (wordScore w chunkLower).2 * 15

/-- The relevance score (in half-points) a chunk receives inside
`findRelevantChunks`. -/
def chunkScore2 (question : String) (history : List HMsg) (c : Chunk) : ℕ :=
  calculateRelevance2 (expandQuery question history) c.text

/-- Number of occurrences of `x` in `l`. -/
def countIn [DecidableEq α] (l : List α) (x : α) : ℕ :=
  (l.filter (fun y => y = x)).length

/-- The context block format asserted by the specification claim:
`[Document: <name>, Page: <n>]` — with a colon after `Page`.  (The
source writes `Page <n>`; see the C9 counterexample.) -/
def contextBlockClaimed (c : Chunk) : String :=
  "[Document: " ++
    (match c.documentName with
      | none => "Unknown"
      | some s => if s = "" then "Unknown" else s) ++
    ", Page: " ++ toString c.pageNumber ++ "]\n" ++ c.text

/-- Modelled from the spec (§4.3), amended to the source's actual
`Page <n>` label: the DOCUMENT CONTEXT section as the spec describes
it — each selected chunk rendered as a labeled block, the blocks
joined by the separator. -/
def specJoinBlocks : List Chunk → String
  | [] => ""
  | [c] => contextBlock c
  | c :: c' :: cs => contextBlock c ++ "\n\n---\n\n" ++ specJoinBlocks (c' :: cs)

/-- Modelled from the spec (§4.3): the Previous Conversation
transcript of alternating Question/Answer lines. -/
def specTranscript : List HMsg → String
  | [] => ""
  | [m] => (if m.role = "user" then "Question" else "Answer") ++ ": " ++ m.content
  | m :: m' :: ms =>
    (if m.role = "user" then "Question" else "Answer") ++ ": " ++ m.content ++
      "\n" ++ specTranscript (m' :: ms)

/-- Modelled from the spec (§4.3), with the amended `Page <n>` label:
fixed instruction preamble, DOCUMENT CONTEXT section of labeled
blocks, then — when history is non-empty — the Previous Conversation
transcript between the context and the final question. -/
def buildPromptSpec (question : String) (chunks : List Chunk)
    (history : List HMsg) : String :=
  "You are a professional document analysis assistant. \n" ++
  "You are provided with excerpts from one or more documents. \n" ++
  "Review the provided context and conversation history to answer the final question accurately.\n" ++
  "\n" ++
  "CRITICAL GUIDELINES:\n" ++
  "1. Answer based ONLY on the provided document text.\n" ++
  "2. If multiple documents are mentioned, cross-reference them to find connections (e.g., if one document mentions a person and another mentions an action they took).\n" ++
  "3. Always cite the document name and page numbers used in your answer.\n" ++
  "4. If the answer is not in the context, say you don't have enough information.\n" ++
  "\n" ++
  "---\n" ++
  "DOCUMENT CONTEXT:\n" ++
  specJoinBlocks chunks ++ "\n" ++
  "---\n" ++
  "\n" ++
  (if history = [] then ""
   else "Previous Conversation:\n" ++ specTranscript history ++ "\n\n") ++
  "Final Question: " ++ question ++
  "\n" ++
  "\n" ++
  "Answer:"

/-- A single short positioned fragment (a bare page number). -/
def artifactItem : TextItem :=
  { str := "42", left := 0, top := 0, width := 10, height := 10 }

/-- A page whose layout data is a single short artifact (a bare page
number), the failing input of claim C8. -/
def artifactPage : PageText :=
  { pageNumber := 1, text := "42", items := some [artifactItem] }

/-- The identity of a chunk: every field except the citation
refinements `rects` and `pinpointText`. -/
def chunkCore (c : Chunk) :
    String × String × Nat × Nat × Option String × Option String :=
  (c.chunkId, c.text, c.pageNumber, c.chunkIndex, c.documentId, c.documentName)

/-! ## Supporting lemmas -/

theorem relevanceLoop_eq (cl : List Char) (ws : List (List Char))
    (s u : ℕ) :
    relevanceLoop cl ws (s, u) =
      (s + (ws.map (fun w => (wordScore w cl).1)).sum,
       u + (ws.map (fun w => (wordScore w cl).2)).sum) := by
  induction ws generalizing s u with
  | nil => simp [relevanceLoop]
  | cons w t ih => simp [relevanceLoop, ih]; omega

theorem map_contrib_sum (cl : List Char) (ws : List (List Char)) :
    (ws.map (contrib cl)).sum =
      (ws.map (fun w => (wordScore w cl).1)).sum +
        (ws.map (fun w => (wordScore w cl).2)).sum * 15 := by
  induction ws with
  | nil => simp
  | cons w t ih => simp [contrib, ih]; ring

theorem calculateRelevance2_eq_sum (q : List Char) (c : String) :
    calculateRelevance2 q c =
      ((questionWordsOf (q.map Char.toLower)).map (contrib (lowerL c))).sum := by
  simp only [calculateRelevance2]
  rw [relevanceLoop_eq, map_contrib_sum]
  simp

theorem contrib_ge_of_exact (cl w : List Char)
    (h : 0 < countOcc w cl) : 34 ≤ contrib cl w := by
  simp only [contrib, wordScore, if_pos h]
  omega

theorem contrib_le_of_no_exact (cl w : List Char)
    (h : countOcc w cl = 0) : contrib cl w ≤ 19 := by
  have hno : ¬ 0 < countOcc w cl := by omega
  simp only [contrib, wordScore, if_neg hno]
  split_ifs <;> (simp; try omega)

theorem two_mem_le_sum (l : List α) [DecidableEq α] (f : α → ℕ)
    (w1 w2 : α) (h1 : w1 ∈ l) (h2 : w2 ∈ l)
    (hne : w1 ≠ w2) : f w1 + f w2 ≤ (l.map f).sum := by
  have hperm : l.Perm (w1 :: l.erase w1) := List.perm_cons_erase h1
  have h2p : w2 ∈ l.erase w1 := (List.mem_erase_of_ne hne.symm).2 h2
  have hsum : (l.map f).sum = f w1 + ((l.erase w1).map f).sum := by
    have := (hperm.map f).sum_eq
    simpa using this
  have hle : f w2 ≤ ((l.erase w1).map f).sum :=
    List.single_le_sum (fun x _ => Nat.zero_le x) _ (List.mem_map_of_mem f h2p)
  omega

theorem countIn_cons [DecidableEq α] (a : α) (t : List α) (x : α) :
    countIn (a :: t) x = (if a = x then 1 else 0) + countIn t x := by
  simp only [countIn, List.filter_cons]
  split_ifs with h <;> (simp_all; try omega)

theorem countIn_eq_zero [DecidableEq α] {l : List α} {x : α}
    (h : x ∉ l) : countIn l x = 0 := by
  induction l with
  | nil => rfl
  | cons a t ih =>
    rw [countIn_cons]
    have hax : ¬ a = x := fun hax => h (hax ▸ List.mem_cons_self a t)
    rw [if_neg hax, ih (fun hm => h (List.mem_cons_of_mem a hm))]

theorem sum_eq_count_mul (l : List α) [DecidableEq α] (f : α → ℕ) (w0 : α)
    (h : ∀ x ∈ l, x ≠ w0 → f x = 0) :
    (l.map f).sum = countIn l w0 * f w0 := by
  induction l with
  | nil => simp [countIn]
  | cons a t ih =>
    have ht : ∀ x ∈ t, x ≠ w0 → f x = 0 := fun x hx => h x (List.mem_cons_of_mem _ hx)
    rw [List.map_cons, List.sum_cons, countIn_cons, ih ht]
    by_cases ha : a = w0
    · subst ha
      rw [if_pos rfl]
      ring
    · rw [h a (List.mem_cons_self _ _) ha, if_neg ha]
      ring

/-! ## Claim C5: termination of the chunking loop -/

/-- C5: the claim states that `chunkText` rejects or clamps
`chunkSize ≤ overlap` so that its sliding-window loop always
advances and the function terminates on every input.  The source does
neither: the loop `for (let i = 0; i < words.length; i += chunkSize -
overlap)` never terminates once `chunkSize ≤ overlap` and the page
has at least one word (and `split(/\s+/)` yields at least one word on
every string).  This theorem proves the divergence: for every fuel
bound the step-indexed loop fails to finish. -/
theorem chunkText_fallback_loop_diverges (wordCount : Nat)
    (chunkSize overlap : Int) (hcfg : chunkSize ≤ overlap) :
    ∀ (fuel : Nat) (i : Int), i < (wordCount : Int) →
      chunkTextLoopFuel wordCount chunkSize overlap i fuel = none := by
  intro fuel
  induction fuel with
  | zero => intro i _; rfl
  | succ n ih =>
    intro i hi
    simp only [chunkTextLoopFuel]
    rw [if_pos hi, ih _ (by omega)]
    rfl

/-- Witness for C5: the concrete configuration `chunkSize = overlap =
50` on the two-word page text `"a b"` never finishes (shown here for
fuel 1000). -/
theorem chunkText_fallback_loop_diverges_witness :
    (splitWsJS "a b".toList).length = 2 ∧ (50 : Int) ≤ 50 ∧ (0 : Int) < 2 ∧
      chunkTextLoopFuel 2 50 50 0 1000 = none :=
  ⟨by decide, by decide, by decide,
    chunkText_fallback_loop_diverges 2 50 50 (by decide) 1000 0 (by decide)⟩

/-- In the other regime, `overlap < chunkSize`, the same loop always
terminates: some fuel suffices from any start index.  (This justifies
modelling the fallback branch by the total function `slideWindows` in
that regime.) -/
theorem chunkTextLoopFuel_terminates (wordCount : Nat)
    (chunkSize overlap : Int) (h : overlap < chunkSize) (i : Int) :
    ∃ fuel k, chunkTextLoopFuel wordCount chunkSize overlap i fuel = some k := by
  have H : ∀ (n : Nat) (i : Int), ((wordCount : Int) - i).toNat ≤ n →
      ∃ fuel k, chunkTextLoopFuel wordCount chunkSize overlap i fuel = some k := by
    intro n
    induction n with
    | zero =>
      intro i hn
      have hni : ¬ i < (wordCount : Int) := by omega
      exact ⟨1, 0, by simp [chunkTextLoopFuel, hni]⟩
    | succ n ih =>
      intro i hn
      by_cases hi : i < (wordCount : Int)
      · obtain ⟨fuel, k, hk⟩ := ih (i + (chunkSize - overlap)) (by omega)
        exact ⟨fuel + 1, k + 1, by simp [chunkTextLoopFuel, hi, hk]⟩
      · exact ⟨1, 0, by simp [chunkTextLoopFuel, hi]⟩
  exact H _ i le_rfl

/-! ## Claim C8: short sole paragraph of a page -/

/-- Layout evaluation of a page whose positional data is one single
item: it forms a single line and that line forms the page's single
paragraph — the only content of the page. -/
theorem paragraphsOf_single_item (it : TextItem) :
    paragraphsOf (linesOf (sortItems [it])) = [[it]] := by
  have hsort : sortItems [it] = [it] := rfl
  have habs : jsAbs (it.top - it.top) = 0 := by
    simp [jsAbs, sub_self]
  have hmax : ∀ a : ℚ, jsMax a a = a := by
    intro a; simp [jsMax]
  have hlines : linesOf [it] =
      [⟨it.top, heightOr10 it.height, [it],
        String.intercalate " " ([it].map TextItem.str)⟩] := by
    simp only [linesOf, linesLoop, habs, hmax]
    norm_num
  rw [hsort, hlines]
  simp only [paragraphsOf, paragraphsLoop]
  norm_num

/-- If the sole item of a page joins to a text of trimmed length at
most 5, `chunkText` emits no chunk at all for that page. -/
theorem chunkText_single_short_item (pageNumber : Nat) (text : String)
    (it : TextItem) (cs ov : Nat)
    (hshort : ¬ 5 < (trimL (String.intercalate " " ([it].map TextItem.str)).toList).length) :
    chunkText [{ pageNumber := pageNumber, text := text, items := some [it] }] cs ov = [] := by
  have hshort2 : ¬ 5 < (trimL (" ".intercalate [it.str]).data).length := by
    simpa [String.toList] using hshort
  simp only [chunkText, List.foldl]
  rw [paragraphsOf_single_item it]
  simp [paragraphChunks, hshort2]

/-- C8: the claim states that a paragraph at or below the minimal
length threshold is dropped **unless it is the only content of its
page**, in which case it is still emitted.  The source has no such
exception (`if (chunkText.trim().length > 5)` unconditionally,
`src/unnamed/part_011:227`, despite the comment above it promising
"unless they are the only things"): a page whose sole paragraph is
the two-character artifact `"42"` — its only content — yields zero
chunks. -/
theorem sole_short_paragraph_dropped :
    paragraphsOf (linesOf (sortItems [artifactItem])) = [[artifactItem]] ∧
    (trimL (String.intercalate " " ([artifactItem].map TextItem.str)).toList).length ≤ 5 ∧
    chunkText [artifactPage] 500 50 = [] :=
  ⟨paragraphsOf_single_item artifactItem, by decide,
    chunkText_single_short_item 1 "42" artifactItem 500 50 (by decide)⟩

/-! ## Claim C7: exact pairs beat a partial match -/

/-- C7 counterexample: the claim states that a chunk with exact
occurrences of at least 2 distinct query words always scores strictly
higher than a chunk with only a stemmed partial match of 1 query word
and no exact occurrences.  With the query word `running` repeated four
times, the chunk `"runn runn"` — only partial matches of the single
query word `running`, no exact occurrence of any query word — scores
38 points while `"alpha beta"` — exact occurrences of the two
distinct query words `alpha` and `beta` — scores only 34 points. -/
theorem exact_pair_dominance_counterexample :
    ("alpha".toList ∈ questionWordsOf
        (("alpha beta running running running running").toList.map Char.toLower) ∧
      "beta".toList ∈ questionWordsOf
        (("alpha beta running running running running").toList.map Char.toLower) ∧
      "alpha".toList ≠ "beta".toList ∧
      0 < countOcc "alpha".toList (lowerL "alpha beta") ∧
      0 < countOcc "beta".toList (lowerL "alpha beta") ∧
      (∀ w ∈ questionWordsOf
          (("alpha beta running running running running").toList.map Char.toLower),
        countOcc w (lowerL "runn runn") = 0) ∧
      (∀ w ∈ questionWordsOf
          (("alpha beta running running running running").toList.map Char.toLower),
        w ≠ "running".toList → wordScore w (lowerL "runn runn") = (0, 0))) ∧
    relevanceQ ("alpha beta running running running running").toList "alpha beta" = 34 ∧
    relevanceQ ("alpha beta running running running running").toList "runn runn" = 38 ∧
    relevanceQ ("alpha beta running running running running").toList "alpha beta" <
      relevanceQ ("alpha beta running running running running").toList "runn runn" := by
  have hc1 : calculateRelevance2
      ("alpha beta running running running running").toList "alpha beta" = 68 := by decide
  have hc2 : calculateRelevance2
      ("alpha beta running running running running").toList "runn runn" = 76 := by decide
  refine ⟨by decide, ?_, ?_, ?_⟩
  · simp only [relevanceQ, hc1]; norm_num
  · simp only [relevanceQ, hc2]; norm_num
  · simp only [relevanceQ, hc1, hc2]; norm_num

/-- C7 (amended): provided the partially-matched query word occurs at
most 3 times among the tokenised query words, a chunk containing
exact (case-insensitive) occurrences of at least 2 distinct query
words scores strictly higher — at least 34 points — than a chunk
containing only stemmed partial matches of that one query word and no
exact occurrence of any query word — at most 3 × 9.5 points. -/
theorem exact_pair_dominance (q : List Char) (c1 c2 : String)
    (w1 w2 w0 : List Char)
    (h1 : w1 ∈ questionWordsOf (q.map Char.toLower))
    (h2 : w2 ∈ questionWordsOf (q.map Char.toLower))
    (hne : w1 ≠ w2)
    (he1 : 0 < countOcc w1 (lowerL c1))
    (he2 : 0 < countOcc w2 (lowerL c1))
    (hnoexact : ∀ w ∈ questionWordsOf (q.map Char.toLower),
      countOcc w (lowerL c2) = 0)
    (honly : ∀ w ∈ questionWordsOf (q.map Char.toLower), w ≠ w0 →
      wordScore w (lowerL c2) = (0, 0))
    (hcnt : countIn (questionWordsOf (q.map Char.toLower)) w0 ≤ 3) :
    relevanceQ q c2 < relevanceQ q c1 ∧
      34 ≤ relevanceQ q c1 ∧ relevanceQ q c2 ≤ 57 / 2 := by
  have hs1 : 68 ≤ calculateRelevance2 q c1 := by
    rw [calculateRelevance2_eq_sum]
    have ha := contrib_ge_of_exact (lowerL c1) w1 he1
    have hb := contrib_ge_of_exact (lowerL c1) w2 he2
    have hab := two_mem_le_sum (questionWordsOf (q.map Char.toLower))
      (contrib (lowerL c1)) w1 w2 h1 h2 hne
    omega
  have hs2 : calculateRelevance2 q c2 ≤ 57 := by
    rw [calculateRelevance2_eq_sum]
    have hz : ∀ x ∈ questionWordsOf (q.map Char.toLower), x ≠ w0 →
        contrib (lowerL c2) x = 0 := by
      intro x hx hxne
      simp [contrib, honly x hx hxne]
    rw [sum_eq_count_mul _ _ w0 hz]
    by_cases hmem : w0 ∈ questionWordsOf (q.map Char.toLower)
    · have hle := contrib_le_of_no_exact (lowerL c2) w0 (hnoexact w0 hmem)
      exact le_trans (Nat.mul_le_mul hcnt hle) (by norm_num)
    · rw [countIn_eq_zero hmem]
      omega
  have hq1 : (68 : ℚ) ≤ (calculateRelevance2 q c1 : ℚ) := by exact_mod_cast hs1
  have hq2 : ((calculateRelevance2 q c2 : ℚ)) ≤ 57 := by exact_mod_cast hs2
  refine ⟨?_, ?_, ?_⟩ <;> simp only [relevanceQ] <;> linarith

/-- Witness for C7 (amended) at the query `"alpha beta running"`,
the exact-pair chunk `"alpha beta"` and the partial-match chunk
`"runn runn"`. -/
theorem exact_pair_dominance_witness :
    ("alpha".toList ∈ questionWordsOf (("alpha beta running").toList.map Char.toLower) ∧
      "beta".toList ∈ questionWordsOf (("alpha beta running").toList.map Char.toLower) ∧
      "alpha".toList ≠ "beta".toList ∧
      0 < countOcc "alpha".toList (lowerL "alpha beta") ∧
      0 < countOcc "beta".toList (lowerL "alpha beta") ∧
      (∀ w ∈ questionWordsOf (("alpha beta running").toList.map Char.toLower),
        countOcc w (lowerL "runn runn") = 0) ∧
      (∀ w ∈ questionWordsOf (("alpha beta running").toList.map Char.toLower),
        w ≠ "running".toList → wordScore w (lowerL "runn runn") = (0, 0)) ∧
      countIn (questionWordsOf (("alpha beta running").toList.map Char.toLower))
        "running".toList ≤ 3) ∧
    relevanceQ ("alpha beta running").toList "runn runn" <
      relevanceQ ("alpha beta running").toList "alpha beta" :=
  ⟨⟨by decide, by decide, by decide, by decide, by decide, by decide, by decide, by decide⟩,
    (exact_pair_dominance ("alpha beta running").toList "alpha beta" "runn runn"
      "alpha".toList "beta".toList "running".toList
      (by decide) (by decide) (by decide) (by decide) (by decide)
      (by decide) (by decide) (by decide)).1⟩

/-! ## Claim C4: the sliding-window fallback -/

theorem slideWindows_pos (words : List (List Char)) (cs ov i : Nat)
    (h1 : i < words.length) (h2 : ov < cs) :
    slideWindows words cs ov i =
      ((words.drop i).take cs) :: slideWindows words cs ov (i + (cs - ov)) := by
  rw [slideWindows]
  rw [dif_pos ⟨h1, h2⟩]

theorem slideWindows_neg (words : List (List Char)) (cs ov i : Nat)
    (h : ¬ (i < words.length ∧ ov < cs)) :
    slideWindows words cs ov i = [] := by
  rw [slideWindows]
  rw [dif_neg h]

theorem slideWindows_getElem (words : List (List Char)) (cs ov : Nat)
    (h2 : ov < cs) (k : Nat) : ∀ i : Nat,
    (slideWindows words cs ov i)[k]? =
      if i + (cs - ov) * k < words.length then
        some ((words.drop (i + (cs - ov) * k)).take cs)
      else none := by
  induction k with
  | zero =>
    intro i
    by_cases h1 : i < words.length
    · rw [slideWindows_pos words cs ov i h1 h2]
      simp [h1]
    · rw [slideWindows_neg words cs ov i (by simp [h1])]
      simp [h1]
  | succ n ih =>
    intro i
    by_cases h1 : i < words.length
    · rw [slideWindows_pos words cs ov i h1 h2]
      rw [List.getElem?_cons_succ, ih (i + (cs - ov))]
      have harith : i + (cs - ov) + (cs - ov) * n = i + (cs - ov) * (n + 1) := by ring
      rw [harith]
    · rw [slideWindows_neg words cs ov i (by simp [h1])]
      have : ¬ i + (cs - ov) * (n + 1) < words.length := by omega
      simp [this]

theorem mem_dropWhile_of_neg (p : α → Bool) (c : α) :
    ∀ s : List α, c ∈ s → p c = false → c ∈ s.dropWhile p := by
  intro s
  induction s with
  | nil => intro h; exact absurd h (List.not_mem_nil c)
  | cons a t ih =>
    intro hmem hc
    rw [List.dropWhile_cons]
    by_cases ha : p a = true
    · have hca : c ≠ a := fun hca => by rw [hca] at hc; rw [hc] at ha; cases ha
      have hct : c ∈ t := by
        rcases List.mem_cons.1 hmem with h | h
        · exact absurd h hca
        · exact h
      rw [if_pos ha]
      exact ih hct hc
    · rw [if_neg ha]
      exact hmem

theorem trimL_ne_nil (s : List Char) (c : Char) (hmem : c ∈ s)
    (hc : isWs c = false) : trimL s ≠ [] := by
  have h1 : c ∈ s.dropWhile isWs := mem_dropWhile_of_neg isWs c s hmem hc
  have h2 : c ∈ (s.dropWhile isWs).reverse := List.mem_reverse.2 h1
  have h3 : c ∈ (s.dropWhile isWs).reverse.dropWhile isWs :=
    mem_dropWhile_of_neg isWs c _ h2 hc
  have h4 : c ∈ trimL s := by
    unfold trimL
    exact List.mem_reverse.2 h3
  exact List.ne_nil_of_mem h4

theorem splitWsAux_no_ws : ∀ (s : List Char) (st : Option (List Char)),
    (∀ acc, st = some acc → ∀ c ∈ acc, isWs c = false) →
    ∀ w ∈ splitWsAux st s, ∀ c ∈ w, isWs c = false := by
  intro s
  induction s with
  | nil =>
    intro st hst w hw c hc
    match st with
    | some acc =>
      simp only [splitWsAux, List.mem_singleton] at hw
      subst hw
      exact hst acc rfl c (List.mem_reverse.1 hc)
    | none =>
      simp only [splitWsAux, List.mem_singleton] at hw
      subst hw
      exact absurd hc (List.not_mem_nil c)
  | cons a t ih =>
    intro st hst w hw c hc
    match st with
    | some acc =>
      simp only [splitWsAux] at hw
      by_cases ha : isWs a = true
      · rw [if_pos ha] at hw
        rcases List.mem_cons.1 hw with h | h
        · subst h
          exact hst acc rfl c (List.mem_reverse.1 hc)
        · exact ih none (by intro acc h; cases h) w h c hc
      · rw [if_neg ha] at hw
        refine ih (some (a :: acc)) ?_ w hw c hc
        intro acc2 h
        injection h with h
        subst h
        intro x hx
        rcases List.mem_cons.1 hx with h | h
        · subst h; exact Bool.eq_false_iff.2 ha
        · exact hst acc rfl x h
    | none =>
      simp only [splitWsAux] at hw
      by_cases ha : isWs a = true
      · rw [if_pos ha] at hw
        exact ih none (by intro acc h; cases h) w hw c hc
      · rw [if_neg ha] at hw
        refine ih (some [a]) ?_ w hw c hc
        intro acc2 h
        injection h with h
        subst h
        intro x hx
        rw [List.mem_singleton] at hx
        subst hx
        exact Bool.eq_false_iff.2 ha

/-- Every character of every word of `splitWsJS` is non-whitespace. -/
theorem splitWsJS_no_ws (s : List Char) :
    ∀ w ∈ splitWsJS s, ∀ c ∈ w, isWs c = false := by
  refine splitWsAux_no_ws s (some []) ?_
  intro acc h
  injection h with h
  subst h
  intro c hc
  exact absurd hc (List.not_mem_nil c)

theorem foldl_fallbackStep_texts (pn : Nat) :
    ∀ (ws : List (List (List Char))),
    (∀ w ∈ ws, 0 < (trimL (String.mk (List.intercalate [' '] w)).toList).length) →
    ∀ (acc : List Chunk) (idx : Nat),
    ((ws.foldl (fallbackStep pn) (acc, idx)).1).map Chunk.text =
      acc.map Chunk.text ++ ws.map (fun w => String.mk (List.intercalate [' '] w)) := by
  intro ws
  induction ws with
  | nil => intro _ acc idx; simp
  | cons w t ih =>
    intro h acc idx
    have hw := h w (List.mem_cons_self _ _)
    have ht : ∀ x ∈ t, 0 < (trimL (String.mk (List.intercalate [' '] x)).toList).length :=
      fun x hx => h x (List.mem_cons_of_mem _ hx)
    rw [List.foldl_cons]
    have hstep : fallbackStep pn (acc, idx) w =
        (acc ++ [{ chunkId := "chunk-" ++ toString pn ++ "-" ++ toString idx,
                   text := String.mk (List.intercalate [' '] w),
                   pageNumber := pn, chunkIndex := idx }], idx + 1) := by
      simp only [fallbackStep]
      rw [if_pos hw]
    rw [hstep, ih ht]
    simp

theorem intercalate_cons_cons (sep a r : List Char) (rs : List (List Char)) :
    List.intercalate sep (a :: r :: rs) = a ++ sep ++ List.intercalate sep (r :: rs) := by
  simp [List.intercalate, List.intersperse]

theorem mem_intercalate_of_mem (sep : List Char) :
    ∀ (l : List (List Char)) (x : List Char) (c : Char),
      x ∈ l → c ∈ x → c ∈ List.intercalate sep l := by
  intro l
  induction l with
  | nil => intro x c hx _; exact absurd hx (List.not_mem_nil x)
  | cons a t ih =>
    intro x c hx hc
    match t with
    | [] =>
      have hxa : x = a := by
        rcases List.mem_cons.1 hx with h | h
        · exact h
        · exact absurd h (List.not_mem_nil x)
      subst hxa
      simpa [List.intercalate, List.intersperse] using hc
    | r :: rs =>
      rw [intercalate_cons_cons]
      rcases List.mem_cons.1 hx with h | h
      · subst h
        exact List.mem_append_left _ (List.mem_append_left _ hc)
      · exact List.mem_append_right _ (ih x c h hc)

/-- C4: on a page without positional items (hypotheses: `items`
absent or empty, and — as for any extracted, trimmed page text — no
word of the whitespace-split is empty), `chunkText` with
`chunkSize = 100`, `overlap = 20` emits exactly the sliding windows:
the texts of the emitted chunks are the window texts in order, window
`k` is the 100-word slice starting at word `80·k`, consecutive full
windows share exactly the last/first 20 words, and every word of the
page occurs in at least one window. -/
theorem sliding_window_chunks (p : PageText)
    (hitems : p.items = none ∨ p.items = some [])
    (hwords : ∀ w ∈ splitWsJS p.text.toList, w ≠ []) :
    ((chunkText [p] 100 20).map Chunk.text =
      (slideWindows (splitWsJS p.text.toList) 100 20 0).map
        (fun w => String.mk (List.intercalate [' '] w))) ∧
    (∀ k : Nat, (slideWindows (splitWsJS p.text.toList) 100 20 0)[k]? =
      if 80 * k < (splitWsJS p.text.toList).length then
        some (((splitWsJS p.text.toList).drop (80 * k)).take 100)
      else none) ∧
    (∀ k : Nat, ∀ w1 w2 : List (List Char),
      (slideWindows (splitWsJS p.text.toList) 100 20 0)[k]? = some w1 →
      (slideWindows (splitWsJS p.text.toList) 100 20 0)[k + 1]? = some w2 →
      w1.length = 100 → w1.drop 80 = w2.take 20) ∧
    (∀ (j : Nat) (w : List Char), (splitWsJS p.text.toList)[j]? = some w →
      ∃ (k : Nat) (win : List (List Char)),
        (slideWindows (splitWsJS p.text.toList) 100 20 0)[k]? = some win ∧ w ∈ win) := by
  have hov : (20 : Nat) < 100 := by norm_num
  have hget80 : ∀ k : Nat, (slideWindows (splitWsJS p.text.toList) 100 20 0)[k]? =
      if 80 * k < (splitWsJS p.text.toList).length then
        some (((splitWsJS p.text.toList).drop (80 * k)).take 100)
      else none := by
    intro k
    rw [slideWindows_getElem (splitWsJS p.text.toList) 100 20 hov k 0]
    norm_num [Nat.mul_comm]
  have hnontrivial : ∀ w ∈ slideWindows (splitWsJS p.text.toList) 100 20 0,
      0 < (trimL (String.mk (List.intercalate [' '] w)).toList).length := by
    intro w hw
    obtain ⟨k, hk⟩ := List.mem_iff_getElem?.1 hw
    rw [hget80 k] at hk
    by_cases hcond : 80 * k < (splitWsJS p.text.toList).length
    · rw [if_pos hcond] at hk
      have hk2 : ((splitWsJS p.text.toList).drop (80 * k)).take 100 = w :=
        Option.some.inj hk
      have hd : (splitWsJS p.text.toList).drop (80 * k) ≠ [] := by
        have h0 : 0 < ((splitWsJS p.text.toList).drop (80 * k)).length := by
          rw [List.length_drop]; omega
        exact List.ne_nil_of_length_pos h0
      obtain ⟨d0, dr, hd0⟩ := List.exists_cons_of_ne_nil hd
      have hd0mem : d0 ∈ splitWsJS p.text.toList :=
        List.mem_of_mem_drop (l := splitWsJS p.text.toList) (n := 80 * k)
          (by rw [hd0]; exact List.mem_cons_self _ _)
      have hd0ne : d0 ≠ [] := hwords d0 hd0mem
      obtain ⟨c0, cr, hc0⟩ := List.exists_cons_of_ne_nil hd0ne
      have hcmem : c0 ∈ d0 := by rw [hc0]; exact List.mem_cons_self _ _
      have hcns : isWs c0 = false := splitWsJS_no_ws p.text.toList d0 hd0mem c0 hcmem
      have hd0w : d0 ∈ w := by
        have h00 : w[0]? = some d0 := by
          rw [← hk2, List.getElem?_take_of_lt (by norm_num : (0 : Nat) < 100), hd0]
          simp
        exact List.mem_iff_getElem?.2 ⟨0, h00⟩
      have hcj : c0 ∈ List.intercalate [' '] w :=
        mem_intercalate_of_mem [' '] w d0 c0 hd0w hcmem
      have hne : trimL (String.mk (List.intercalate [' '] w)).toList ≠ [] := by
        have heq : (String.mk (List.intercalate [' '] w)).toList =
            List.intercalate [' '] w := rfl
        rw [heq]
        exact trimL_ne_nil _ c0 hcj hcns
      exact List.length_pos.2 hne
    · rw [if_neg hcond] at hk
      simp at hk
  refine ⟨?_, hget80, ?_, ?_⟩
  · have hfold := foldl_fallbackStep_texts p.pageNumber
      (slideWindows (splitWsJS p.text.toList) 100 20 0) hnontrivial [] 0
    rcases hitems with h | h <;>
      simpa [chunkText, h, fallbackChunks] using hfold
  · intro k w1 w2 hk1 hk2 hlen
    rw [hget80 k] at hk1
    rw [hget80 (k + 1)] at hk2
    by_cases hcond1 : 80 * k < (splitWsJS p.text.toList).length
    · rw [if_pos hcond1] at hk1
      have hw1 : ((splitWsJS p.text.toList).drop (80 * k)).take 100 = w1 :=
        Option.some.inj hk1
      by_cases hcond2 : 80 * (k + 1) < (splitWsJS p.text.toList).length
      · rw [if_pos hcond2] at hk2
        have hw2 : ((splitWsJS p.text.toList).drop (80 * (k + 1))).take 100 = w2 :=
          Option.some.inj hk2
        rw [← hw1, ← hw2]
        rw [List.drop_take, List.drop_drop, List.take_take]
        have h1 : (100 : Nat) - 80 = 20 := by norm_num
        have h2 : 80 * k + 80 = 80 * (k + 1) := by ring
        have h3 : min 20 100 = 20 := by norm_num
        rw [h1, h2, h3]
      · rw [if_neg hcond2] at hk2
        simp at hk2
    · rw [if_neg hcond1] at hk1
      simp at hk1
  · intro j w hj
    have hjlen : j < (splitWsJS p.text.toList).length := by
      by_contra hge
      rw [List.getElem?_eq_none (by omega)] at hj
      simp at hj
    have hmd : 80 * (j / 80) ≤ j := by
      have h := Nat.div_mul_le_self j 80
      omega
    refine ⟨j / 80, ((splitWsJS p.text.toList).drop (80 * (j / 80))).take 100, ?_, ?_⟩
    · rw [hget80 (j / 80),
        if_pos (by omega : 80 * (j / 80) < (splitWsJS p.text.toList).length)]
    · 
      have hr : j - 80 * (j / 80) < 100 := by
        have := Nat.mod_lt j (show 0 < 80 by norm_num)
        have hdm := Nat.div_add_mod j 80
        omega
      have hmem : (((splitWsJS p.text.toList).drop (80 * (j / 80))).take 100)[j - 80 * (j / 80)]? = some w := by
        rw [List.getElem?_take_of_lt hr, List.getElem?_drop]
        have hidx : 80 * (j / 80) + (j - 80 * (j / 80)) = j := by omega
        rw [hidx]
        exact hj
      exact List.mem_iff_getElem?.2 ⟨_, hmem⟩

/-- Witness for C4 at a concrete three-word page without positional
items. -/
theorem sliding_window_chunks_witness :
    (({ pageNumber := 1, text := "alpha beta gamma", items := none } : PageText).items = none ∨
      ({ pageNumber := 1, text := "alpha beta gamma", items := none } : PageText).items = some []) ∧
    (∀ w ∈ splitWsJS ("alpha beta gamma" : String).toList, w ≠ []) ∧
    ((chunkText [{ pageNumber := 1, text := "alpha beta gamma", items := none }] 100 20).map Chunk.text =
      (slideWindows (splitWsJS ("alpha beta gamma" : String).toList) 100 20 0).map
        (fun w => String.mk (List.intercalate [' '] w))) :=
  ⟨Or.inl rfl, by decide,
    (sliding_window_chunks { pageNumber := 1, text := "alpha beta gamma", items := none }
      (Or.inl rfl) (by decide)).1⟩

/-! ## Claim C6: the diversity cap -/

theorem selectDiverse_length (topK : Nat) :
    ∀ (cands : List (Chunk × ℕ)) (counts : String → Nat) (selLen : Nat),
      (selectDiverse topK cands counts selLen).length ≤ topK - selLen := by
  intro cands
  induction cands with
  | nil => intro counts selLen; simp [selectDiverse]
  | cons item rest ih =>
    intro counts selLen
    simp only [selectDiverse]
    split_ifs with h1 h2
    · simp
    · simp only [List.length_cons]
      have h := ih (fun d => if d = docKey item.1 then counts (docKey item.1) + 1
        else counts d) (selLen + 1)
      omega
    · exact le_trans (ih counts selLen) (by omega)

theorem selectDiverse_docCount (topK : Nat) (d : String) :
    ∀ (cands : List (Chunk × ℕ)) (counts : String → Nat) (selLen : Nat),
      counts d ≤ ceil07 topK →
      counts d + ((selectDiverse topK cands counts selLen).filter
        (fun c => docKey c = d)).length ≤ ceil07 topK := by
  intro cands
  induction cands with
  | nil => intro counts selLen h; simpa [selectDiverse] using h
  | cons item rest ih =>
    intro counts selLen h
    simp only [selectDiverse]
    split_ifs with h1 h2
    · simpa using h
    · set counts2 := fun x => if x = docKey item.1 then counts (docKey item.1) + 1
        else counts x with hcounts2
      by_cases hd : docKey item.1 = d
      · rw [List.filter_cons, if_pos (decide_eq_true hd)]
        simp only [List.length_cons]
        have hc2d : counts2 d = counts d + 1 := by
          rw [hcounts2]
          simp only
          rw [if_pos hd.symm, hd]
        have h2d : counts d < ceil07 topK := hd ▸ h2
        have hrec := ih counts2 (selLen + 1) (by rw [hc2d]; omega)
        rw [hc2d] at hrec
        omega
      · rw [List.filter_cons, if_neg (by simp [hd])]
        have hc2d : counts2 d = counts d := by
          rw [hcounts2]
          simp only
          rw [if_neg (fun hx => hd hx.symm)]
        have hrec := ih counts2 (selLen + 1) (by rw [hc2d]; exact h)
        rw [hc2d] at hrec
        exact hrec
    · exact ih counts selLen h

theorem selectDiverse_complete (topK : Nat) :
    ∀ (cands : List (Chunk × ℕ)) (counts : String → Nat) (selLen : Nat),
      selLen + (selectDiverse topK cands counts selLen).length < topK →
      ∀ p ∈ cands, p.1 ∈ selectDiverse topK cands counts selLen ∨
        ceil07 topK ≤ counts (docKey p.1) +
          ((selectDiverse topK cands counts selLen).filter
            (fun c => docKey c = docKey p.1)).length := by
  intro cands
  induction cands with
  | nil => intro counts selLen _ p hp; exact absurd hp (List.not_mem_nil p)
  | cons item rest ih =>
    intro counts selLen hlen p hp
    simp only [selectDiverse] at hlen ⊢
    split_ifs at hlen ⊢ with h1 h2
    · omega
    · rcases List.mem_cons.1 hp with hpi | hpr
      · subst hpi
        exact Or.inl (List.mem_cons_self _ _)
      · simp only [List.length_cons] at hlen
        set counts2 := fun x => if x = docKey item.1 then counts (docKey item.1) + 1
          else counts x with hcounts2
        have hrec := ih counts2 (selLen + 1) (by omega) p hpr
        rcases hrec with hin | hge
        · exact Or.inl (List.mem_cons_of_mem _ hin)
        · right
          by_cases hd : docKey p.1 = docKey item.1
          · rw [List.filter_cons, if_pos (decide_eq_true hd.symm)]
            simp only [List.length_cons]
            have hc2 : counts2 (docKey p.1) = counts (docKey p.1) + 1 := by
              rw [hcounts2]
              simp only
              rw [if_pos hd, hd]
            rw [hc2] at hge
            omega
          · rw [List.filter_cons, if_neg (by simp; exact fun hx => hd hx.symm)]
            have hc2 : counts2 (docKey p.1) = counts (docKey p.1) := by
              rw [hcounts2]
              simp only
              rw [if_neg hd]
            rw [hc2] at hge
            exact hge
    · rcases List.mem_cons.1 hp with hpi | hpr
      · subst hpi
        right
        omega
      · exact ih counts selLen hlen p hpr

theorem selectDiverse_sublist (topK : Nat) :
    ∀ (cands : List (Chunk × ℕ)) (counts : String → Nat) (selLen : Nat),
      (selectDiverse topK cands counts selLen).Sublist (cands.map Prod.fst) := by
  intro cands
  induction cands with
  | nil => intro counts selLen; simp [selectDiverse]
  | cons item rest ih =>
    intro counts selLen
    simp only [selectDiverse, List.map_cons]
    split_ifs with h1 h2
    · exact List.nil_sublist _
    · exact List.Sublist.cons₂ _ (ih _ _)
    · exact List.Sublist.cons _ (ih _ _)

/-- C6: for every call of `findRelevantChunks`, at most `topK` chunks
are returned in total, for every document key at most
`Math.ceil(topK * 0.7)` of the returned chunks carry that key
(`ceil07 10 = 7` in particular for `topK = 10`), and — filling the
remaining slots from other documents — whenever fewer than `topK`
chunks are returned, every positive-scoring candidate is either
returned or belongs to a document that already contributes exactly
the cap. -/
theorem diversity_cap (question : String) (chunks : List Chunk)
    (topK : Nat) (history : List HMsg) :
    (findRelevantChunks question chunks topK history).length ≤ topK ∧
    (∀ d : String, ((findRelevantChunks question chunks topK history).filter
       (fun c => docKey c = d)).length ≤ ceil07 topK) ∧
    ceil07 10 = 7 ∧
    ((findRelevantChunks question chunks topK history).length < topK →
      ∀ p ∈ (rankedChunks question chunks history).filter (fun p => 0 < p.2),
        p.1 ∈ findRelevantChunks question chunks topK history ∨
        ((findRelevantChunks question chunks topK history).filter
          (fun c => docKey c = docKey p.1)).length = ceil07 topK) := by
  by_cases hc : ((rankedChunks question chunks history).filter (fun p => 0 < p.2)).length = 0
  · have hnil : (rankedChunks question chunks history).filter (fun p => 0 < p.2) = [] :=
      List.length_eq_zero.1 hc
    refine ⟨?_, ?_, rfl, ?_⟩ <;>
      simp [findRelevantChunks, hc, hnil]
  · have hres : findRelevantChunks question chunks topK history =
        selectDiverse topK ((rankedChunks question chunks history).filter
          (fun p => 0 < p.2)) (fun _ => 0) 0 := by
      simp [findRelevantChunks, hc]
    refine ⟨?_, ?_, rfl, ?_⟩
    · rw [hres]
      exact le_trans (selectDiverse_length topK _ _ _) (by omega)
    · intro d
      rw [hres]
      have := selectDiverse_docCount topK d
        ((rankedChunks question chunks history).filter (fun p => 0 < p.2))
        (fun _ => 0) 0 (by simp)
      omega
    · intro hlt p hp
      rw [hres] at hlt ⊢
      have hcomp := selectDiverse_complete topK
        ((rankedChunks question chunks history).filter (fun p => 0 < p.2))
        (fun _ => 0) 0 (by omega) p hp
      rcases hcomp with h | h
      · exact Or.inl h
      · right
        have hcap := selectDiverse_docCount topK (docKey p.1)
          ((rankedChunks question chunks history).filter (fun p => 0 < p.2))
          (fun _ => 0) 0 (by simp)
        simp only [Nat.zero_add] at h hcap
        omega

/-- Witness for C6: eight identical positive-scoring chunks of one
document, `topK = 10`: at most `ceil07 10 = 7` are returned. -/
theorem diversity_cap_witness :
    (findRelevantChunks "alpha"
      (List.replicate 8 ⟨"c", "alpha", 1, 0, none, some "A", none, none⟩) 10 []).length ≤ 10 ∧
    ((findRelevantChunks "alpha"
      (List.replicate 8 ⟨"c", "alpha", 1, 0, none, some "A", none, none⟩) 10 []).filter
        (fun c => docKey c = "A")).length ≤ ceil07 10 ∧
    (findRelevantChunks "alpha"
      (List.replicate 8 ⟨"c", "alpha", 1, 0, none, some "A", none, none⟩) 10 []).length < 10 :=
  ⟨(diversity_cap "alpha"
      (List.replicate 8 ⟨"c", "alpha", 1, 0, none, some "A", none, none⟩) 10 []).1,
   (diversity_cap "alpha"
      (List.replicate 8 ⟨"c", "alpha", 1, 0, none, some "A", none, none⟩) 10 []).2.1 "A",
   by decide⟩

/-! ## Claim C10: ordering and positivity of the ranker result -/

theorem insertDesc_perm (x : Chunk × ℕ) :
    ∀ l : List (Chunk × ℕ), (insertDesc x l).Perm (x :: l) := by
  intro l
  induction l with
  | nil => exact List.Perm.refl _
  | cons y ys ih =>
    simp only [insertDesc]
    split_ifs with h
    · exact List.Perm.refl _
    · exact List.Perm.trans (ih.cons y) (List.Perm.swap x y ys)

theorem sortByScoreDesc_perm :
    ∀ l : List (Chunk × ℕ), (sortByScoreDesc l).Perm l := by
  intro l
  induction l with
  | nil => exact List.Perm.refl _
  | cons x xs ih =>
    exact List.Perm.trans (insertDesc_perm x (sortByScoreDesc xs)) (ih.cons x)

theorem insertDesc_pairwise (x : Chunk × ℕ) :
    ∀ l : List (Chunk × ℕ),
      l.Pairwise (fun a b => b.2 ≤ a.2) →
      (insertDesc x l).Pairwise (fun a b => b.2 ≤ a.2) := by
  intro l
  induction l with
  | nil => intro _; exact List.pairwise_singleton _ x
  | cons y ys ih =>
    intro h
    rcases List.pairwise_cons.1 h with ⟨hy, hys⟩
    simp only [insertDesc]
    split_ifs with hxy
    · refine List.pairwise_cons.2 ⟨?_, h⟩
      intro z hz
      rcases List.mem_cons.1 hz with hzy | hzys
      · subst hzy; exact hxy
      · exact le_trans (hy z hzys) hxy
    · refine List.pairwise_cons.2 ⟨?_, ih hys⟩
      intro z hz
      have hz2 : z ∈ x :: ys := (insertDesc_perm x ys).mem_iff.1 hz
      rcases List.mem_cons.1 hz2 with hzx | hzys
      · subst hzx
        omega
      · exact hy z hzys

theorem sortByScoreDesc_sorted :
    ∀ l : List (Chunk × ℕ),
      (sortByScoreDesc l).Pairwise (fun a b => b.2 ≤ a.2) := by
  intro l
  induction l with
  | nil => exact List.Pairwise.nil
  | cons x xs ih => exact insertDesc_pairwise x (sortByScoreDesc xs) ih

theorem rankedChunks_snd (question : String) (chunks : List Chunk)
    (history : List HMsg) :
    ∀ p ∈ rankedChunks question chunks history,
      p.2 = chunkScore2 question history p.1 := by
  intro p hp
  have hp2 : p ∈ chunks.map
      (fun c => (c, calculateRelevance2 (expandQuery question history) c.text)) :=
    (sortByScoreDesc_perm _).mem_iff.1 hp
  obtain ⟨c, _, hc⟩ := List.mem_map.1 hp2
  rw [← hc]
  rfl

theorem rankedChunks_fst_perm (question : String) (chunks : List Chunk)
    (history : List HMsg) :
    ((rankedChunks question chunks history).map Prod.fst).Perm chunks := by
  have h1 := (sortByScoreDesc_perm (chunks.map
    (fun c => (c, calculateRelevance2 (expandQuery question history) c.text)))).map Prod.fst
  have h2 : (chunks.map
      (fun c => (c, calculateRelevance2 (expandQuery question history) c.text))).map Prod.fst
      = chunks := by
    rw [List.map_map]
    have hid : (Prod.fst ∘ fun c : Chunk =>
        (c, calculateRelevance2 (expandQuery question history) c.text)) = id := rfl
    rw [hid, List.map_id]
  rw [h2] at h1
  exact h1

theorem rankedChunks_pairwise (question : String) (chunks : List Chunk)
    (history : List HMsg) :
    ((rankedChunks question chunks history).map Prod.fst).Pairwise
      (fun a b => chunkScore2 question history b ≤ chunkScore2 question history a) := by
  rw [List.pairwise_map]
  refine List.Pairwise.imp_of_mem ?_ (sortByScoreDesc_sorted _)
  intro a b ha hb hab
  rw [← rankedChunks_snd question chunks history a ha,
    ← rankedChunks_snd question chunks history b hb]
  exact hab

/-- C10: the ranked list is the input chunk list ordered by
non-increasing relevance score (a permutation of the input, pairwise
sorted); the result of `findRelevantChunks` is a subsequence of that
ordered list, itself ordered by non-increasing score; every returned
chunk has strictly positive score; and when the result is non-empty
its first element has maximal score among all input chunks.
(Scores in half-points, twice the JavaScript value.) -/
theorem ranker_result_ordered (question : String) (chunks : List Chunk)
    (topK : Nat) (history : List HMsg) :
    ((rankedChunks question chunks history).map Prod.fst).Perm chunks ∧
    ((rankedChunks question chunks history).map Prod.fst).Pairwise
      (fun a b => chunkScore2 question history b ≤ chunkScore2 question history a) ∧
    (findRelevantChunks question chunks topK history).Sublist
      ((rankedChunks question chunks history).map Prod.fst) ∧
    (findRelevantChunks question chunks topK history).Pairwise
      (fun a b => chunkScore2 question history b ≤ chunkScore2 question history a) ∧
    (∀ c ∈ findRelevantChunks question chunks topK history,
      0 < chunkScore2 question history c) ∧
    (∀ c ∈ chunks, ∀ h0 : Chunk,
      (findRelevantChunks question chunks topK history).head? = some h0 →
      chunkScore2 question history c ≤ chunkScore2 question history h0) := by
  have hsub : (findRelevantChunks question chunks topK history).Sublist
      ((rankedChunks question chunks history).map Prod.fst) := by
    by_cases hc : ((rankedChunks question chunks history).filter (fun p => 0 < p.2)).length = 0
    · simp [findRelevantChunks, hc]
    · have hres : findRelevantChunks question chunks topK history =
          selectDiverse topK ((rankedChunks question chunks history).filter
            (fun p => 0 < p.2)) (fun _ => 0) 0 := by
        simp [findRelevantChunks, hc]
      rw [hres]
      exact List.Sublist.trans
        (selectDiverse_sublist topK _ _ _)
        ((List.filter_sublist _).map Prod.fst)
  have hmemcand : ∀ c ∈ findRelevantChunks question chunks topK history,
      ∃ p ∈ (rankedChunks question chunks history).filter (fun p => 0 < p.2), p.1 = c := by
    intro c hcmem
    by_cases hc : ((rankedChunks question chunks history).filter (fun p => 0 < p.2)).length = 0
    · rw [show findRelevantChunks question chunks topK history = [] by
        simp [findRelevantChunks, hc]] at hcmem
      exact absurd hcmem (List.not_mem_nil c)
    · have hres : findRelevantChunks question chunks topK history =
          selectDiverse topK ((rankedChunks question chunks history).filter
            (fun p => 0 < p.2)) (fun _ => 0) 0 := by
        simp [findRelevantChunks, hc]
      rw [hres] at hcmem
      have hmm : c ∈ ((rankedChunks question chunks history).filter
          (fun p => 0 < p.2)).map Prod.fst :=
        (selectDiverse_sublist topK _ _ _).mem hcmem
      obtain ⟨p, hp, hpc⟩ := List.mem_map.1 hmm
      exact ⟨p, hp, hpc⟩
  refine ⟨rankedChunks_fst_perm question chunks history,
    rankedChunks_pairwise question chunks history, hsub,
    List.Pairwise.sublist hsub (rankedChunks_pairwise question chunks history), ?_, ?_⟩
  · intro c hcmem
    obtain ⟨p, hp, hpc⟩ := hmemcand c hcmem
    have hppos : 0 < p.2 := by
      have := List.of_mem_filter hp
      simpa using this
    have hpm : p ∈ rankedChunks question chunks history := List.mem_of_mem_filter hp
    rw [← hpc, ← rankedChunks_snd question chunks history p hpm]
    exact hppos
  · intro c hcchunks h0 hh0
    by_cases hc : ((rankedChunks question chunks history).filter (fun p => 0 < p.2)).length = 0
    · rw [show findRelevantChunks question chunks topK history = [] by
        simp [findRelevantChunks, hc]] at hh0
      simp at hh0
    · have hres : findRelevantChunks question chunks topK history =
          selectDiverse topK ((rankedChunks question chunks history).filter
            (fun p => 0 < p.2)) (fun _ => 0) 0 := by
        simp [findRelevantChunks, hc]
      obtain ⟨p0, prest, hp0⟩ :=
        List.exists_cons_of_ne_nil (List.ne_nil_of_length_pos (by omega) :
          (rankedChunks question chunks history).filter (fun p => 0 < p.2) ≠ [])
      have htopK : 0 < topK := by
        by_contra htz
        have htz0 : topK = 0 := by omega
        subst htz0
        rw [show findRelevantChunks question chunks 0 history = [] by
          rw [hres, hp0]; simp [selectDiverse]] at hh0
        simp at hh0
      have hcap : (0 : Nat) < ceil07 topK := by
        unfold ceil07
        omega
      have hhead : findRelevantChunks question chunks topK history =
          p0.1 :: selectDiverse topK prest
            (fun x => if x = docKey p0.1 then 1 else 0) 1 := by
        rw [hres, hp0]
        simp only [selectDiverse]
        rw [if_neg (by omega), if_pos (by simpa using hcap)]
      -- the head is p0.1, the top-scoring candidate
      have hscore : ∀ q ∈ (rankedChunks question chunks history).filter
          (fun p => 0 < p.2), q.2 ≤ p0.2 := by
        intro q hq
        rw [hp0] at hq
        rcases List.mem_cons.1 hq with hq0 | hqr
        · subst hq0; exact le_refl _
        · have hpw : ((rankedChunks question chunks history).filter
              (fun p => 0 < p.2)).Pairwise (fun a b => b.2 ≤ a.2) :=
            List.Pairwise.sublist (List.filter_sublist _) (sortByScoreDesc_sorted _)
          rw [hp0] at hpw
          exact (List.pairwise_cons.1 hpw).1 q hqr
      have hp0mem : p0 ∈ rankedChunks question chunks history :=
        List.mem_of_mem_filter (by rw [hp0]; exact List.mem_cons_self _ _)
      have hp0score : p0.2 = chunkScore2 question history p0.1 :=
        rankedChunks_snd question chunks history p0 hp0mem
      have hh0p : h0 = p0.1 := by
        rw [hhead] at hh0
        simpa using hh0.symm
      rw [hh0p, ← hp0score]
      -- now bound the score of c
      by_cases hcpos : 0 < chunkScore2 question history c
      · have hcmem : (c, chunkScore2 question history c) ∈
            (rankedChunks question chunks history).filter (fun p => 0 < p.2) := by
          refine List.mem_filter.2 ⟨?_, by simpa using hcpos⟩
          have : (c, chunkScore2 question history c) ∈ chunks.map
              (fun x => (x, calculateRelevance2 (expandQuery question history) x.text)) :=
            List.mem_map.2 ⟨c, hcchunks, rfl⟩
          exact (sortByScoreDesc_perm _).mem_iff.2 this
        have := hscore (c, chunkScore2 question history c) hcmem
        simpa using this
      · omega

/-- Witness for C10: the deadline question against a relevant and an
irrelevant chunk; the head of the result is the deadline chunk and it
has maximal score. -/
theorem ranker_result_ordered_witness :
    (findRelevantChunks "What is the deadline?"
      [⟨"c1", "The deadline is March 1st.", 2, 0, none, none, none, none⟩,
       ⟨"c2", "Unrelated text about weather.", 5, 1, none, none, none, none⟩] 3 []).head? =
      some ⟨"c1", "The deadline is March 1st.", 2, 0, none, none, none, none⟩ ∧
    chunkScore2 "What is the deadline?" []
        ⟨"c2", "Unrelated text about weather.", 5, 1, none, none, none, none⟩ ≤
      chunkScore2 "What is the deadline?" []
        ⟨"c1", "The deadline is March 1st.", 2, 0, none, none, none, none⟩ :=
  ⟨by decide,
    (ranker_result_ordered "What is the deadline?"
      [⟨"c1", "The deadline is March 1st.", 2, 0, none, none, none, none⟩,
       ⟨"c2", "Unrelated text about weather.", 5, 1, none, none, none, none⟩] 3 []).2.2.2.2.2
      ⟨"c2", "Unrelated text about weather.", 5, 1, none, none, none, none⟩ (by decide)
      ⟨"c1", "The deadline is March 1st.", 2, 0, none, none, none, none⟩ (by decide)⟩

/-! ## Claim C9: the prompt builder -/

theorem intercalate_go_append (s x : String) :
    ∀ (l : List String) (y : String),
      String.intercalate.go (x ++ y) s l = x ++ String.intercalate.go y s l := by
  intro l
  induction l with
  | nil => intro y; rfl
  | cons a as ih =>
    intro y
    show String.intercalate.go (x ++ y ++ s ++ a) s as =
      x ++ String.intercalate.go (y ++ s ++ a) s as
    have hs : x ++ y ++ s ++ a = x ++ (y ++ s ++ a) := by
      simp [String.append_assoc]
    rw [hs, ih]

theorem strIntercalate_cons_cons (s a b : String) (l : List String) :
    String.intercalate s (a :: b :: l) = a ++ s ++ String.intercalate s (b :: l) := by
  show String.intercalate.go a s (b :: l) = a ++ s ++ String.intercalate.go b s l
  show String.intercalate.go (a ++ s ++ b) s l = a ++ s ++ String.intercalate.go b s l
  exact intercalate_go_append s (a ++ s) l b

theorem specJoinBlocks_eq (chunks : List Chunk) :
    String.intercalate "\n\n---\n\n" (chunks.map contextBlock) = specJoinBlocks chunks := by
  induction chunks with
  | nil => rfl
  | cons c cs ih =>
    cases cs with
    | nil => rfl
    | cons c2 cs2 =>
      rw [List.map_cons, List.map_cons, strIntercalate_cons_cons, ← List.map_cons, ih]
      rfl

theorem specTranscript_eq (history : List HMsg) :
    String.intercalate "\n"
      (history.map fun m =>
        (if m.role = "user" then "Question" else "Answer") ++ ": " ++ m.content) =
      specTranscript history := by
  induction history with
  | nil => rfl
  | cons m ms ih =>
    cases ms with
    | nil => rfl
    | cons m2 ms2 =>
      rw [List.map_cons, List.map_cons, strIntercalate_cons_cons]
      show _ = (if m.role = "user" then "Question" else "Answer") ++ ": " ++ m.content ++
        "\n" ++ specTranscript (m2 :: ms2)
      rw [← ih]
      rfl

set_option maxRecDepth 100000 in
/-- C9 counterexample: the claim states that `buildPrompt` renders
each chunk block as `[Document: <name>, Page: <n>]` — with a colon
after `Page`.  The source writes `Page <n>` without the colon: for a
concrete chunk the claimed block does not occur in the prompt, and
the colon-free block does. -/
theorem buildPrompt_page_label_counterexample :
    contextBlock ⟨"c0", "hello", 2, 0, none, none, some "A", none⟩ =
      "[Document: A, Page 2]\nhello" ∧
    contextBlockClaimed ⟨"c0", "hello", 2, 0, none, none, some "A", none⟩ =
      "[Document: A, Page: 2]\nhello" ∧
    containsSub
      (buildPrompt "q" [⟨"c0", "hello", 2, 0, none, none, some "A", none⟩] []).toList
      ("[Document: A, Page: 2]").toList = false ∧
    containsSub
      (buildPrompt "q" [⟨"c0", "hello", 2, 0, none, none, some "A", none⟩] []).toList
      ("[Document: A, Page 2]").toList = true := by
  decide

/-- C9 (amended, `Page <n>` without colon): `buildPrompt` renders
every selected chunk as the labeled block `[Document: <name>, Page
<n>]` followed by the chunk text, joins the blocks with the
`---` separator into the DOCUMENT CONTEXT section, and, when the
history is non-empty, inserts the Previous Conversation transcript of
alternating Question/Answer lines between the context and the final
question — i.e. it equals the prompt the (amended) specification
describes, `buildPromptSpec`, a pure function of the same three
arguments. -/
theorem buildPrompt_refines_spec (question : String) (chunks : List Chunk)
    (history : List HMsg) :
    buildPrompt question chunks history = buildPromptSpec question chunks history := by
  cases history with
  | nil =>
    simp only [buildPrompt, buildPromptSpec, historyTextOf, specJoinBlocks_eq]
    norm_num
  | cons m ms =>
    simp only [buildPrompt, buildPromptSpec, historyTextOf, specJoinBlocks_eq,
      specTranscript_eq]
    simp [String.append_assoc]

/-! ## Claim C1: cloud quota enforcement -/

/-- C1: in every cloud-routed question-turn (cloud mode selected, or
local mode with the liveness probe failing), if the usage counter is
at least `GROQ_LIMIT = 5` at the start of the turn, the turn appends
an error message and terminates with no backend call and the counter
unchanged; otherwise a successfully completed cloud turn increments
the counter exactly once — the pinpoint call (the second of the two
backend calls) does not increment it.  At `usage = 5` the first part
is exactly: the 6th cloud-routed question fails without any backend
call. -/
theorem groq_quota_enforced (cloudMode ollamaRunning : Bool) (usage : Nat)
    (baseUrl question : String) (chunks : List Chunk) (prior : List Msg)
    (mainCloud : Except String String) (mainLocal : Except String OllamaResult)
    (pinpointOut : Except String String)
    (htrim : trimL question.toList ≠ [])
    (hroute : cloudMode = true ∨ ollamaRunning = false) :
    (GROQ_LIMIT ≤ usage →
      (processQuestion cloudMode ollamaRunning usage baseUrl question chunks prior
          mainCloud mainLocal pinpointOut).backendCalls = 0 ∧
      (processQuestion cloudMode ollamaRunning usage baseUrl question chunks prior
          mainCloud mainLocal pinpointOut).usage = usage ∧
      ((processQuestion cloudMode ollamaRunning usage baseUrl question chunks prior
          mainCloud mainLocal pinpointOut).messages =
        prior ++ [{ role := "user", content := question },
                  { role := "assistant", content := cloudLimitContent }] ∨
       (processQuestion cloudMode ollamaRunning usage baseUrl question chunks prior
          mainCloud mainLocal pinpointOut).messages =
        prior ++ [{ role := "user", content := question },
                  { role := "assistant", content := offlineLimitContent baseUrl }])) ∧
    (usage < GROQ_LIMIT →
      findRelevantChunks question chunks 15
        ((lastN 4 prior).map fun m => HMsg.mk m.role m.content) ≠ [] →
      ∀ resp : String, mainCloud = Except.ok resp →
        (processQuestion cloudMode ollamaRunning usage baseUrl question chunks prior
            mainCloud mainLocal pinpointOut).usage = usage + 1 ∧
        (processQuestion cloudMode ollamaRunning usage baseUrl question chunks prior
            mainCloud mainLocal pinpointOut).backendCalls = 2) := by
  have htrim' : ¬ trimL question.data = [] := htrim
  constructor
  · intro hge
    have hge5 : 5 ≤ usage := hge
    cases cloudMode with
    | true =>
      have hres : processQuestion true ollamaRunning usage baseUrl question chunks prior
          mainCloud mainLocal pinpointOut =
          { messages := prior ++ [{ role := "user", content := question },
              { role := "assistant", content := cloudLimitContent }],
            usage := usage, backendCalls := 0 } := by
        simp [processQuestion, htrim', GROQ_LIMIT, hge5]
      rw [hres]
      exact ⟨rfl, rfl, Or.inl rfl⟩
    | false =>
      have ho : ollamaRunning = false := by
        rcases hroute with hc | ho
        · cases hc
        · exact ho
      subst ho
      have hres : processQuestion false false usage baseUrl question chunks prior
          mainCloud mainLocal pinpointOut =
          { messages := prior ++ [{ role := "user", content := question },
              { role := "assistant", content := offlineLimitContent baseUrl }],
            usage := usage, backendCalls := 0 } := by
        simp [processQuestion, htrim', GROQ_LIMIT, hge5]
      rw [hres]
      exact ⟨rfl, rfl, Or.inr rfl⟩
  · intro hlt hrel resp hok
    subst hok
    have hlt5 : ¬ 5 ≤ usage := by
      have h5 : usage < 5 := hlt
      omega
    have hlen : ¬ (findRelevantChunks question chunks 15
        ((lastN 4 prior).map fun m => HMsg.mk m.role m.content)).length = 0 := by
      simpa [List.length_eq_zero] using hrel
    cases cloudMode with
    | true =>
      have hres : processQuestion true ollamaRunning usage baseUrl question chunks prior
          (Except.ok resp) mainLocal pinpointOut =
          runGeneration true usage question chunks prior
            (prior ++ [{ role := "user", content := question }])
            (Except.ok resp) mainLocal pinpointOut := by
        simp [processQuestion, htrim', GROQ_LIMIT, hlt5]
      rw [hres]
      simp [runGeneration, hlen]
    | false =>
      have ho : ollamaRunning = false := by
        rcases hroute with hc | ho
        · cases hc
        · exact ho
      subst ho
      have hres : processQuestion false false usage baseUrl question chunks prior
          (Except.ok resp) mainLocal pinpointOut =
          runGeneration true usage question chunks prior
            (prior ++ [{ role := "user", content := question },
              { role := "assistant", content := fallbackNoteContent (GROQ_LIMIT - usage) }])
            (Except.ok resp) mainLocal pinpointOut := by
        simp [processQuestion, htrim', GROQ_LIMIT]
        omega
      rw [hres]
      simp [runGeneration, hlen]

/-- Witness for C1: at `usage = 5` the cloud-routed turn makes no
backend call and leaves the counter at 5; at `usage = 4` the same
successful turn makes both backend calls and raises the counter
to 5. -/
theorem groq_quota_enforced_witness :
    ((processQuestion true true 5 "http://localhost:11434" "What is the deadline?"
        [⟨"c0", "The deadline is March 3.", 1, 0, none, none, none, none⟩] []
        (Except.ok "It is March 3.") (Except.error "offline") (Except.error "nopin")).backendCalls = 0 ∧
     (processQuestion true true 5 "http://localhost:11434" "What is the deadline?"
        [⟨"c0", "The deadline is March 3.", 1, 0, none, none, none, none⟩] []
        (Except.ok "It is March 3.") (Except.error "offline") (Except.error "nopin")).usage = 5) ∧
    ((processQuestion true true 4 "http://localhost:11434" "What is the deadline?"
        [⟨"c0", "The deadline is March 3.", 1, 0, none, none, none, none⟩] []
        (Except.ok "It is March 3.") (Except.error "offline") (Except.error "nopin")).usage = 4 + 1 ∧
     (processQuestion true true 4 "http://localhost:11434" "What is the deadline?"
        [⟨"c0", "The deadline is March 3.", 1, 0, none, none, none, none⟩] []
        (Except.ok "It is March 3.") (Except.error "offline") (Except.error "nopin")).backendCalls = 2) := by
  constructor
  · have h := (groq_quota_enforced true true 5 "http://localhost:11434" "What is the deadline?"
      [⟨"c0", "The deadline is March 3.", 1, 0, none, none, none, none⟩] []
      (Except.ok "It is March 3.") (Except.error "offline") (Except.error "nopin")
      (by decide) (Or.inl rfl)).1 (by decide)
    exact ⟨h.1, h.2.1⟩
  · exact (groq_quota_enforced true true 4 "http://localhost:11434" "What is the deadline?"
      [⟨"c0", "The deadline is March 3.", 1, 0, none, none, none, none⟩] []
      (Except.ok "It is March 3.") (Except.error "offline") (Except.error "nopin")
      (by decide) (Or.inl rfl)).2 (by decide) (by decide) "It is March 3." rfl


/-! ## Claim C2: empty ranker result and the no-relevant-content turn -/

theorem char_toLower_idem (c : Char) : c.toLower.toLower = c.toLower := by
  simp only [Char.toLower]
  by_cases h : c.toNat ≥ 65 ∧ c.toNat ≤ 90
  · rw [if_pos h]
    have hv : (c.toNat + 32).isValidChar := Or.inl (by omega)
    have ht : (Char.ofNat (c.toNat + 32)).toNat = c.toNat + 32 := by
      rw [Char.ofNat, dif_pos hv]
      rfl
    rw [if_neg (by rw [ht]; omega)]
  · rw [if_neg h, if_neg h]

theorem lowerL_map_toLower (s : String) :
    (lowerL s).map Char.toLower = lowerL s := by
  simp only [lowerL, List.map_map]
  exact List.map_congr_left fun a _ => char_toLower_idem a

theorem expandQuery_nil (q : String) : expandQuery q [] = lowerL q := by
  simp [expandQuery]

theorem wordScore_eq_zero (w cl : List Char)
    (hexact : countOcc w cl = 0)
    (hroot : 4 < w.length → 3 < (stripSuffixJS w).length →
      countOcc (stripSuffixJS w) cl = 0) :
    wordScore w cl = (0, 0) := by
  simp only [wordScore, hexact]
  rw [if_neg (by omega)]
  split_ifs with h1 h2 h3
  · exact absurd h3 (by rw [hroot h1 h2]; omega)
  · rfl
  · rfl
  · rfl

/-- C2 counterexample: the claim states that a question sharing no
words (length > 2, lower-cased, punctuation stripped) with any chunk
text makes `findRelevantChunks` return the empty array.  The question
`purchased` shares no word with the chunk `purchase order` — its only
question word, `purchased`, never occurs in the chunk — yet the
stemmed root `purchas` does occur, the chunk scores positively, and
the ranker returns it. -/
theorem no_shared_words_counterexample :
    (∀ w ∈ questionWordsOf (lowerL "purchased"),
      countOcc w (lowerL "purchase order") = 0) ∧
    findRelevantChunks "purchased"
      [⟨"c0", "purchase order", 1, 0, none, none, none, none⟩] 10 [] ≠ [] := by
  decide

/-- C2 (amended): if no question word (length > 2, lower-cased,
punctuation stripped) occurs in a chunk's lower-cased text — and, for
question words longer than 4 characters whose stemmed root is longer
than 3 characters, the root does not occur either — then
`findRelevantChunks` returns the empty array for every `topK` in a
history-free call, and the orchestrator's turn on such a chunk store
terminates with the `no relevant content` assistant message (which
the error augmentation leaves unchanged), no backend call, and the
usage counter untouched. -/
theorem no_shared_words_empty (question : String) (chunks : List Chunk)
    (topK : Nat)
    (hnone : ∀ c ∈ chunks, ∀ w ∈ questionWordsOf (lowerL question),
      countOcc w (lowerL c.text) = 0 ∧
      (4 < w.length → 3 < (stripSuffixJS w).length →
        countOcc (stripSuffixJS w) (lowerL c.text) = 0)) :
    findRelevantChunks question chunks topK [] = [] ∧
    augmentError noRelevantContent = noRelevantContent ∧
    (∀ (cloudMode ollamaRunning : Bool) (usage : Nat)
       (baseUrl : String) (mainCloud : Except String String)
       (mainLocal : Except String OllamaResult)
       (pinpointOut : Except String String),
      trimL question.toList ≠ [] →
      usage < GROQ_LIMIT →
      (processQuestion cloudMode ollamaRunning usage baseUrl question chunks []
          mainCloud mainLocal pinpointOut).backendCalls = 0 ∧
      (processQuestion cloudMode ollamaRunning usage baseUrl question chunks []
          mainCloud mainLocal pinpointOut).usage = usage ∧
      (processQuestion cloudMode ollamaRunning usage baseUrl question chunks []
          mainCloud mainLocal pinpointOut).messages.getLast? =
        some { role := "assistant", content := noRelevantContent }) := by
  have hscore : ∀ c ∈ chunks,
      calculateRelevance2 (expandQuery question []) c.text = 0 := by
    intro c hc
    rw [expandQuery_nil, calculateRelevance2_eq_sum, lowerL_map_toLower]
    apply List.sum_eq_zero
    intro x hx
    obtain ⟨w, hw, rfl⟩ := List.mem_map.1 hx
    obtain ⟨he, hr⟩ := hnone c hc w hw
    simp [contrib, wordScore_eq_zero _ _ he hr]
  have hemptyAll : ∀ tk : Nat, findRelevantChunks question chunks tk [] = [] := by
    intro tk
    have hfilter : (rankedChunks question chunks []).filter (fun p => 0 < p.2) = [] := by
      rw [List.filter_eq_nil_iff]
      intro p hp
      have h2 := rankedChunks_snd question chunks [] p hp
      have hp1 : p.1 ∈ chunks :=
        (rankedChunks_fst_perm question chunks []).mem_iff.1
          (List.mem_map_of_mem Prod.fst hp)
      simp [h2, chunkScore2, hscore p.1 hp1]
    simp [findRelevantChunks, hfilter]
  have haug : augmentError noRelevantContent = noRelevantContent := by decide
  refine ⟨hemptyAll topK, haug, ?_⟩
  intro cloudMode ollamaRunning usage baseUrl mainCloud mainLocal pinpointOut htrim husage
  have htrim' : ¬ trimL question.data = [] := htrim
  have hlt5 : ¬ 5 ≤ usage := by
    have h5 : usage < 5 := husage
    omega
  have hrel0 : findRelevantChunks question chunks 15 [] = [] := hemptyAll 15
  cases cloudMode with
  | true =>
    have hres : processQuestion true ollamaRunning usage baseUrl question chunks []
        mainCloud mainLocal pinpointOut =
        { messages := [{ role := "user", content := question },
            { role := "assistant", content := augmentError noRelevantContent }],
          usage := usage, backendCalls := 0 } := by
      simp [processQuestion, htrim', GROQ_LIMIT, hlt5, runGeneration, lastN, hrel0]
    rw [hres, haug]
    exact ⟨rfl, rfl, rfl⟩
  | false =>
    cases ollamaRunning with
    | true =>
      have hres : processQuestion false true usage baseUrl question chunks []
          mainCloud mainLocal pinpointOut =
          { messages := [{ role := "user", content := question },
              { role := "assistant", content := augmentError noRelevantContent }],
            usage := usage, backendCalls := 0 } := by
        simp [processQuestion, htrim', GROQ_LIMIT, hlt5, runGeneration, lastN, hrel0]
      rw [hres, haug]
      exact ⟨rfl, rfl, rfl⟩
    | false =>
      have hres : processQuestion false false usage baseUrl question chunks []
          mainCloud mainLocal pinpointOut =
          { messages := [{ role := "user", content := question },
              { role := "assistant",
                content := fallbackNoteContent (GROQ_LIMIT - usage) },
              { role := "assistant", content := augmentError noRelevantContent }],
            usage := usage, backendCalls := 0 } := by
        simp [processQuestion, htrim', GROQ_LIMIT, hlt5, runGeneration, lastN, hrel0]
      rw [hres, haug]
      exact ⟨rfl, rfl, rfl⟩

/-- Witness for C2 (amended): the question `zebra` shares no word and
no root with the chunk `hello world`; the ranker returns the empty
array and the cloud-routed turn at usage 0 commits the
no-relevant-content message without a backend call. -/
theorem no_shared_words_empty_witness :
    findRelevantChunks "zebra"
      [⟨"c0", "hello world", 1, 0, none, none, none, none⟩] 10 [] = [] ∧
    (processQuestion true true 0 "http://localhost:11434" "zebra"
        [⟨"c0", "hello world", 1, 0, none, none, none, none⟩] []
        (Except.ok "resp") (Except.error "off") (Except.error "pin")).backendCalls = 0 ∧
    (processQuestion true true 0 "http://localhost:11434" "zebra"
        [⟨"c0", "hello world", 1, 0, none, none, none, none⟩] []
        (Except.ok "resp") (Except.error "off") (Except.error "pin")).usage = 0 ∧
    (processQuestion true true 0 "http://localhost:11434" "zebra"
        [⟨"c0", "hello world", 1, 0, none, none, none, none⟩] []
        (Except.ok "resp") (Except.error "off") (Except.error "pin")).messages.getLast? =
      some { role := "assistant", content := noRelevantContent } := by
  have h := no_shared_words_empty "zebra"
    [⟨"c0", "hello world", 1, 0, none, none, none, none⟩] 10 (by decide)
  have h2 := h.2.2 true true 0 "http://localhost:11434"
    (Except.ok "resp") (Except.error "off") (Except.error "pin") (by decide) (by decide)
  exact ⟨h.1, h2.1, h2.2.1, h2.2.2⟩

/-! ## Claim C3: pinpoint failure falls back to the ranker chunks -/

theorem pinpointChunk_core (p : List Char) (c : Chunk) :
    chunkCore (pinpointChunk p c) = chunkCore c := by
  simp only [pinpointChunk]
  split
  · split_ifs <;> rfl
  · rfl

theorem applyPinpoint_map_core (pr : String) (l : List Chunk) :
    (applyPinpoint pr l).map chunkCore = l.map chunkCore := by
  simp only [applyPinpoint]
  split_ifs with h
  · rw [List.map_map]
    exact List.map_congr_left fun c _ => pinpointChunk_core _ c
  · rfl

theorem runGeneration_ok_commit (eff : Bool) (usage : Nat) (question : String)
    (chunks : List Chunk) (prior msgs : List Msg)
    (mainCloud : Except String String) (mainLocal : Except String OllamaResult)
    (pinpointOut : Except String String) (resp : String)
    (hsel : (if eff = true then mainCloud
        else Except.map OllamaResult.response mainLocal) = Except.ok resp)
    (hrel : findRelevantChunks question chunks 15
      ((lastN 4 prior).map fun (m : Msg) => HMsg.mk m.role m.content) ≠ []) :
    runGeneration eff usage question chunks prior msgs mainCloud mainLocal pinpointOut =
      { messages := msgs ++
          [{ role := "assistant", content := resp,
             pageNumber := ((match pinpointOut with
                 | Except.error _ => findRelevantChunks question chunks 15
                     ((lastN 4 prior).map fun (m : Msg) => HMsg.mk m.role m.content)
                 | Except.ok pr => applyPinpoint pr (findRelevantChunks question chunks 15
                     ((lastN 4 prior).map fun (m : Msg) => HMsg.mk m.role m.content))).head?).map
               Chunk.pageNumber,
             sourceChunks := some (match pinpointOut with
                 | Except.error _ => findRelevantChunks question chunks 15
                     ((lastN 4 prior).map fun (m : Msg) => HMsg.mk m.role m.content)
                 | Except.ok pr => applyPinpoint pr (findRelevantChunks question chunks 15
                     ((lastN 4 prior).map fun (m : Msg) => HMsg.mk m.role m.content))) }],
        usage := if eff = true then usage + 1 else usage,
        backendCalls := 2 } := by
  have hlen : ¬ (findRelevantChunks question chunks 15
      ((lastN 4 prior).map fun (m : Msg) => HMsg.mk m.role m.content)).length = 0 := by
    simpa [List.length_eq_zero] using hrel
  simp only [runGeneration, hsel, if_neg hlen]

/-- C3: in every turn whose main answer stream succeeds (any route,
quota permitting, non-empty ranker result): if the secondary pinpoint
call throws, the committed assistant message carries exactly the
ranker's chunks — same list, same rects — as its `sourceChunks`; and
in every such turn, failed pinpoint or not, the committed message's
content is the main response (no pinpoint failure is surfaced as an
error), the turn completes both backend calls, and the committed
chunks agree with the ranker's chunks in number and on every field
except the citation refinements `rects` and `pinpointText` (the
source builds fresh objects and never mutates the ranked chunks). -/
theorem pinpoint_failure_preserves_chunks (cloudMode ollamaRunning : Bool)
    (usage : Nat) (baseUrl question : String) (chunks : List Chunk)
    (prior : List Msg) (mainCloud : Except String String)
    (mainLocal : Except String OllamaResult)
    (pinpointOut : Except String String) (resp : String)
    (htrim : trimL question.toList ≠ [])
    (hquota : usage < GROQ_LIMIT)
    (hmain : (if (cloudMode || !ollamaRunning) = true then mainCloud
        else Except.map OllamaResult.response mainLocal) = Except.ok resp)
    (hrel : findRelevantChunks question chunks 15
      ((lastN 4 prior).map fun (m : Msg) => HMsg.mk m.role m.content) ≠ []) :
    (∀ e, pinpointOut = Except.error e →
      (processQuestion cloudMode ollamaRunning usage baseUrl question chunks prior
          mainCloud mainLocal pinpointOut).messages.getLast? =
        some { role := "assistant", content := resp,
               pageNumber := ((findRelevantChunks question chunks 15
                   ((lastN 4 prior).map fun (m : Msg) =>
                     HMsg.mk m.role m.content)).head?).map Chunk.pageNumber,
               sourceChunks := some (findRelevantChunks question chunks 15
                   ((lastN 4 prior).map fun (m : Msg) =>
                     HMsg.mk m.role m.content)) }) ∧
    (processQuestion cloudMode ollamaRunning usage baseUrl question chunks prior
        mainCloud mainLocal pinpointOut).backendCalls = 2 ∧
    (∃ pp : List Chunk,
      (processQuestion cloudMode ollamaRunning usage baseUrl question chunks prior
          mainCloud mainLocal pinpointOut).messages.getLast? =
        some { role := "assistant", content := resp,
               pageNumber := (pp.head?).map Chunk.pageNumber,
               sourceChunks := some pp } ∧
      pp.map chunkCore = (findRelevantChunks question chunks 15
          ((lastN 4 prior).map fun (m : Msg) =>
            HMsg.mk m.role m.content)).map chunkCore ∧
      pp.length = (findRelevantChunks question chunks 15
          ((lastN 4 prior).map fun (m : Msg) => HMsg.mk m.role m.content)).length) := by
  have htrim' : ¬ trimL question.data = [] := htrim
  have hlt5 : ¬ 5 ≤ usage := by
    have h5 : usage < 5 := hquota
    omega
  have hkey : ∃ msgs : List Msg,
      processQuestion cloudMode ollamaRunning usage baseUrl question chunks prior
        mainCloud mainLocal pinpointOut =
      runGeneration (cloudMode || !ollamaRunning) usage question chunks prior msgs
        mainCloud mainLocal pinpointOut := by
    cases cloudMode with
    | true =>
      exact ⟨prior ++ [{ role := "user", content := question }], by
        simp [processQuestion, htrim', GROQ_LIMIT, hlt5]⟩
    | false =>
      cases ollamaRunning with
      | true =>
        exact ⟨prior ++ [{ role := "user", content := question }], by
          simp [processQuestion, htrim', GROQ_LIMIT, hlt5]⟩
      | false =>
        exact ⟨prior ++ [{ role := "user", content := question },
            { role := "assistant", content := fallbackNoteContent (GROQ_LIMIT - usage) }], by
          simp [processQuestion, htrim', GROQ_LIMIT, hlt5]⟩
  obtain ⟨msgs, hres⟩ := hkey
  rw [hres, runGeneration_ok_commit (cloudMode || !ollamaRunning) usage question chunks
    prior msgs mainCloud mainLocal pinpointOut resp hmain hrel]
  refine ⟨?_, rfl, ?_⟩
  · intro e he
    subst he
    simp [List.getLast?_concat]
  · cases pinpointOut with
    | error e =>
      refine ⟨findRelevantChunks question chunks 15
        ((lastN 4 prior).map fun (m : Msg) => HMsg.mk m.role m.content), ?_, rfl, rfl⟩
      simp [List.getLast?_concat]
    | ok pr =>
      refine ⟨applyPinpoint pr (findRelevantChunks question chunks 15
        ((lastN 4 prior).map fun (m : Msg) => HMsg.mk m.role m.content)), ?_, ?_, ?_⟩
      · simp [List.getLast?_concat]
      · exact applyPinpoint_map_core pr _
      · have hmc := congrArg List.length (applyPinpoint_map_core pr
          (findRelevantChunks question chunks 15
            ((lastN 4 prior).map fun (m : Msg) => HMsg.mk m.role m.content)))
        simpa using hmc

/-- Witness for C3: a cloud turn whose pinpoint call fails commits
the main response with the ranker's chunks as `sourceChunks` and
still counts both backend calls. -/
theorem pinpoint_failure_preserves_chunks_witness :
    (processQuestion true true 0 "u" "What is the deadline?"
        [⟨"c0", "The deadline is March 3.", 2, 0,
          some [⟨0, 0, 10, 10⟩], none, none, none⟩] []
        (Except.ok "resp") (Except.error "x")
        (Except.error "pinpoint crashed")).messages.getLast? =
      some { role := "assistant", content := "resp",
             pageNumber := ((findRelevantChunks "What is the deadline?"
                 [⟨"c0", "The deadline is March 3.", 2, 0,
                   some [⟨0, 0, 10, 10⟩], none, none, none⟩] 15 []).head?).map
               Chunk.pageNumber,
             sourceChunks := some (findRelevantChunks "What is the deadline?"
                 [⟨"c0", "The deadline is March 3.", 2, 0,
                   some [⟨0, 0, 10, 10⟩], none, none, none⟩] 15 []) } ∧
    (processQuestion true true 0 "u" "What is the deadline?"
        [⟨"c0", "The deadline is March 3.", 2, 0,
          some [⟨0, 0, 10, 10⟩], none, none, none⟩] []
        (Except.ok "resp") (Except.error "x")
        (Except.error "pinpoint crashed")).backendCalls = 2 := by
  have h := pinpoint_failure_preserves_chunks true true 0 "u" "What is the deadline?"
    [⟨"c0", "The deadline is March 3.", 2, 0,
      some [⟨0, 0, 10, 10⟩], none, none, none⟩] []
    (Except.ok "resp") (Except.error "x") (Except.error "pinpoint crashed") "resp"
    (by decide) (by decide) rfl (by decide)
  exact ⟨h.1 "pinpoint crashed" rfl, h.2.1⟩

end QueryDoc
